import Mathlib

/-!
Verification of the stafford-gpt-ui client-side interaction state model.

This file gives a shallow embedding of the three stateful components of the
repository and proves the specified properties about them:

* `ChatInterface` (dual-mode conversational session manager): the component
  state is `ChatState`; the send/receive cycle of `handleSendMessage` is split
  at its single suspension point (the `await` of the gateway call) into
  `handleSendMessageStart` (the synchronous prefix) and
  `handleSendMessageResolve` / `handleSendMessageFail` (the success and
  failure continuations, which capture the originating mode's setters and the
  session id read at call time, exactly as the JS closure does).
  User/scheduler activity is the event alphabet `ChatEvent`, folded over a
  trace by `runChat`.

* `DocumentUpload` (upload registry + transfer progress simulator): the
  component state is `UploadState`, holding the `files` list and the set of
  still-registered timers (`Driver`). Ticks of the two `setInterval` drivers,
  the hand-off `setTimeout`, file addition and removal are the event alphabet
  `UploadEvent`. Random increments (`Math.random() * 20`, `Math.random() * 15`)
  are modelled as nonnegative rational event parameters.

* `DocumentManagement` (document catalog view): state `DocState`, with the
  fetch cycle split at its suspension point into `fetchStart` and
  `fetchSuccess` / `fetchFailure`.
-/

namespace StaffordGPT

/-! ### Chat interface data model (ChatInterface component) -/

/-- Message role; the `type` field of the `ChatMessage` interface. -/
inductive MsgType
  | user
  | assistant
  | system
deriving DecidableEq, Repr

/-- An entry of a `ChatMessage`'s optional `sources` list. -/
structure Citation where
  document : String
  chunk : String
  relevanceScore : ℚ
  isInternal : Bool
deriving DecidableEq, Repr

/-- The `ChatMessage` interface. The optional `sources` field is modelled as a
list (empty when absent; no code path of the component ever populates it) and
the optional `isTyping` flag as a `Bool` (false when absent). -/
structure ChatMessage where
  id : String
  type : MsgType
  content : String
  timestamp : Nat
  sources : List Citation
  isTyping : Bool
deriving DecidableEq, Repr

/-- The `ChatMode` type: `'customer' | 'internal'`. -/
inductive ChatMode
  | customer
  | internal
deriving DecidableEq, Repr

/-- The mode that is not `m`. -/
def ChatMode.other : ChatMode → ChatMode
  | .customer => .internal
  | .internal => .customer

/-- The data captured by the closure of one in-flight `handleSendMessage`
call: the originating mode (which fixes which `setMessages` / `setSessionId`
the continuation uses) and the `sessionId` value read at call time. -/
structure PendingCall where
  mode : ChatMode
  query : String
  sessionId : Option String
deriving DecidableEq, Repr

/-- Successful gateway response shape: `{answer, session_id}`. -/
structure ApiResult where
  answer : String
  session_id : Option String
deriving DecidableEq, Repr

/-- The `ChatInterface` component state: the six `useState` slots, plus the
set of in-flight gateway calls (`pending`) which in the browser lives in the
event loop rather than in component state. -/
structure ChatState where
  activeMode : ChatMode
  customerMessages : List ChatMessage
  internalMessages : List ChatMessage
  inputValue : String
  isLoading : Bool
  customerSessionId : Option String
  internalSessionId : Option String
  pending : List PendingCall
deriving DecidableEq, Repr

/-- The timeline of mode `m` (the `messages` selection, lines 56-57). -/
def msgsOf (s : ChatState) : ChatMode → List ChatMessage
  | .customer => s.customerMessages
  | .internal => s.internalMessages

/-- The continuity token of mode `m` (the `sessionId` selection, line 58). -/
def tokenOf (s : ChatState) : ChatMode → Option String
  | .customer => s.customerSessionId
  | .internal => s.internalSessionId

/-- `setCustomerMessages` / `setInternalMessages`, selected by mode. -/
def setMsgs (s : ChatState) (m : ChatMode) (l : List ChatMessage) : ChatState :=
  match m with
  | .customer => { s with customerMessages := l }
  | .internal => { s with internalMessages := l }

/-- `setCustomerSessionId` / `setInternalSessionId`, selected by mode. -/
def setToken (s : ChatState) (m : ChatMode) (v : Option String) : ChatState :=
  match m with
  | .customer => { s with customerSessionId := v }
  | .internal => { s with internalSessionId := v }

/-- Initial customer-mode greeting message content. -/
def customerGreeting : String :=
  "Hello! I'm your virtual education consultant. I can help you find information about our affiliated universities, courses, and programs. How can I assist you today?"

/-- Initial internal-mode greeting message content. -/
def internalGreeting : String :=
  "Welcome to internal mode! I have access to all company documents including sales reports, marketing data, and other related information. What would you like to know?"

/-- The fixed failure notice substituted for the answer when the gateway call
fails (the `catch` branch of `handleSendMessage`). -/
def chatErrorText : String :=
  "Sorry, I encountered an error while processing your request. Please try again or check if the API service is running."

/-- `clearChat` welcome text, customer mode. -/
def clearedCustomerText : String :=
  "Chat cleared. How can I help you with our products and services today?"

/-- `clearChat` welcome text, internal mode. -/
def clearedInternalText : String :=
  "Chat cleared. What internal information would you like to access?"

/-- JS `String.prototype.trim()`: strip leading and trailing whitespace.
Defined structurally over the character list (extensionally the behavior of
the `.trim()` call on line 103) so that concrete states evaluate. -/
def trimString (s : String) : String :=
  ⟨((s.data.dropWhile Char.isWhitespace).reverse.dropWhile Char.isWhitespace).reverse⟩

/-- The component's initial state (the `useState` initializers); `t` is the
mount timestamp. -/
def initChatState (t : Nat) : ChatState :=
  { activeMode := .customer
    customerMessages := [{ id := "1", type := .system, content := customerGreeting,
                           timestamp := t, sources := [], isTyping := false }]
    internalMessages := [{ id := "1", type := .system, content := internalGreeting,
                           timestamp := t, sources := [], isTyping := false }]
    inputValue := ""
    isLoading := false
    customerSessionId := none
    internalSessionId := none
    pending := [] }

/-- Synchronous prefix of `handleSendMessage` (lines 102-126): guard on empty
trimmed input or `isLoading`; append the user message and the typing
placeholder to the active mode's timeline; clear the input; set `isLoading`;
register the in-flight call, capturing the active mode and its current
session id. -/
def handleSendMessageStart (now : Nat) (s : ChatState) : ChatState :=
  if trimString s.inputValue = "" ∨ s.isLoading then s
  else
    let userMessage : ChatMessage :=
      { id := Nat.repr now, type := .user, content := s.inputValue,
        timestamp := now, sources := [], isTyping := false }
    let typingMessage : ChatMessage :=
      { id := "typing", type := .assistant, content := "",
        timestamp := now, sources := [], isTyping := true }
    let s1 := setMsgs s s.activeMode (msgsOf s s.activeMode ++ [userMessage, typingMessage])
    { s1 with
      inputValue := ""
      isLoading := true
      pending := s.pending ++ [{ mode := s.activeMode, query := s.inputValue,
                                 sessionId := tokenOf s s.activeMode }] }

/-- The session-update guard of line 132, `result.session_id &&
result.session_id !== sessionId`: a JS-falsy (absent or empty) returned id
never updates, otherwise update exactly when it differs from the captured
session id. -/
def shouldUpdateSession (captured returned : Option String) : Bool :=
  match returned with
  | some sid => if sid = "" then false else if some sid = captured then false else true
  | none => false

/-- The update `setMessages(prev => prev.filter(m => m.id !== 'typing')
.concat(msg))` used by both continuations of `handleSendMessage` (lines 143
and 153): drop the typing placeholder (by its literal id) from mode `m`'s
timeline and append the finalized message `a`. -/
def replaceTyping (s : ChatState) (m : ChatMode) (a : ChatMessage) : ChatState :=
  setMsgs s m ((msgsOf s m).filter (fun x => x.id ≠ "typing") ++ [a])

/-- Success continuation of `handleSendMessage` (lines 130-143): conditionally
overwrite the originating mode's session id, then replace the typing
placeholder with the finalized assistant message, and clear `isLoading` (the
`finally` block). All writes go through the setters captured from the
originating mode `c.mode`. -/
def handleSendMessageResolve (now : Nat) (c : PendingCall) (r : ApiResult)
    (s : ChatState) : ChatState :=
  { replaceTyping
      (if shouldUpdateSession c.sessionId r.session_id
       then setToken s c.mode r.session_id else s)
      c.mode
      { id := Nat.repr (now + 1), type := .assistant, content := r.answer,
        timestamp := now, sources := [], isTyping := false }
    with isLoading := false }

/-- Failure continuation of `handleSendMessage` (lines 144-156): replace the
typing placeholder with the fixed failure notice; session ids untouched;
`isLoading` cleared by the `finally` block. -/
def handleSendMessageFail (now : Nat) (c : PendingCall) (s : ChatState) : ChatState :=
  { replaceTyping s c.mode
      { id := Nat.repr (now + 1), type := .assistant, content := chatErrorText,
        timestamp := now, sources := [], isTyping := false }
    with isLoading := false }

/-- `clearChat` (lines 166-176): replace the active mode's timeline with a
single fresh system welcome message. Session ids are not touched. -/
def clearChat (now : Nat) (s : ChatState) : ChatState :=
  let welcomeMessage : ChatMessage :=
    { id := Nat.repr now, type := .system,
      content := match s.activeMode with
                 | .customer => clearedCustomerText
                 | .internal => clearedInternalText,
      timestamp := now, sources := [], isTyping := false }
  setMsgs s s.activeMode [welcomeMessage]

/-- Events of the chat component: user actions and event-loop completions.
`resolve i r` / `failCall i` complete the `i`-th in-flight call with a
successful response `r` or a network failure. -/
inductive ChatEvent
  | setInput (v : String)
  | switchMode (m : ChatMode)
  | clearChat
  | send
  | resolve (i : Nat) (r : ApiResult)
  | failCall (i : Nat)
deriving DecidableEq, Repr

/-- One step of the chat component under event `e` at time `now`. -/
def chatStep (now : Nat) (e : ChatEvent) (s : ChatState) : ChatState :=
  match e with
  | .setInput v => { s with inputValue := v }
  | .switchMode m => { s with activeMode := m }
  | .clearChat => clearChat now s
  | .send => handleSendMessageStart now s
  | .resolve i r =>
      match s.pending[i]? with
      | some c => handleSendMessageResolve now c r { s with pending := s.pending.eraseIdx i }
      | none => s
  | .failCall i =>
      match s.pending[i]? with
      | some c => handleSendMessageFail now c { s with pending := s.pending.eraseIdx i }
      | none => s

/-- Fold a timed event trace over the chat component. -/
def runChat (s : ChatState) : List (Nat × ChatEvent) → ChatState
  | [] => s
  | (t, e) :: tr => runChat (chatStep t e s) tr

/-- Scan for an orphaned reply: `true` once a finalized assistant message is
seen with no user message anywhere before it; the accumulator records whether
a user message has been passed. -/
def hasOrphanedAssistantGo : Bool → List ChatMessage → Bool
  | _, [] => false
  | seenUser, m :: tl =>
    if m.type = MsgType.assistant ∧ m.isTyping = false ∧ seenUser = false then true
    else hasOrphanedAssistantGo (seenUser || decide (m.type = MsgType.user)) tl

/-- Does the timeline contain a finalized assistant message with no user
message anywhere before it (an orphaned reply)? -/
def hasOrphanedAssistant (l : List ChatMessage) : Bool :=
  hasOrphanedAssistantGo false l

/-- One complete send/receive cycle in the active mode at time `t`: type the
query, send it, and complete the resulting in-flight call — successfully
(`some r`) or with a network failure (`none`). -/
def runCycle (s : ChatState) : String × Nat × Option ApiResult → ChatState
  | (q, t, some r) => chatStep (t + 1) (.resolve 0 r) (chatStep t .send (chatStep t (.setInput q) s))
  | (q, t, none) => chatStep (t + 1) (.failCall 0) (chatStep t .send (chatStep t (.setInput q) s))

/-- Run a sequence of complete send/receive cycles. -/
def runCycles (s : ChatState) : List (String × Nat × Option ApiResult) → ChatState
  | [] => s
  | cy :: cys => runCycles (runCycle s cy) cys

/-- Number of messages carrying the typing placeholder id. -/
def idTypingCount (l : List ChatMessage) : Nat :=
  l.countP (fun m => m.id = "typing")

/-- Number of messages with the pending (`isTyping`) flag set. -/
def typingFlagCount (l : List ChatMessage) : Nat :=
  l.countP (fun m => m.isTyping)

/-- State invariant of the chat component, preserved by every event: at most
one call is in flight; `isLoading` tracks exactly whether a call is in
flight; with no call in flight neither timeline holds a typing placeholder;
an in-flight call's captured session id agrees with its mode's current token,
its mode's timeline holds at most one placeholder and the other mode's
timeline none; and a message carries the `isTyping` flag only if it is the
placeholder with id `"typing"`. -/
def ChatInv (s : ChatState) : Prop :=
  s.pending.length ≤ 1 ∧
  (s.isLoading = true ↔ s.pending ≠ []) ∧
  (s.pending = [] → idTypingCount s.customerMessages = 0 ∧ idTypingCount s.internalMessages = 0) ∧
  (∀ c ∈ s.pending,
      c.sessionId = tokenOf s c.mode ∧
      idTypingCount (msgsOf s c.mode) ≤ 1 ∧
      idTypingCount (msgsOf s c.mode.other) = 0) ∧
  (∀ msg ∈ s.customerMessages, msg.isTyping = true → msg.id = "typing") ∧
  (∀ msg ∈ s.internalMessages, msg.isTyping = true → msg.id = "typing")

/-! ### Document upload data model (DocumentUpload component) -/

/-- The `status` field of the `UploadedFile` interface. -/
inductive UploadStatus
  | uploading
  | processing
  | ready
  | error
deriving DecidableEq, Repr

/-- The `UploadedFile` interface. Progress is a rational in the model (a JS
number in the source); the optional `error` field is an `Option`. -/
structure UploadedFile where
  id : String
  name : String
  size : Nat
  status : UploadStatus
  progress : ℚ
  uploadedAt : Nat
  error : Option String
deriving DecidableEq, Repr

/-- A still-registered timer of `simulateFileProcessing` for one record id:
the upload `setInterval` (carrying its closure-local `progress` counter), the
hand-off `setTimeout`, or the processing `setInterval`. -/
inductive Driver
  | uploadTimer (fileId : String) (localProgress : ℚ)
  | handoff (fileId : String)
  | processTimer (fileId : String)
deriving DecidableEq, Repr

/-- The record id a driver belongs to. -/
def Driver.fileId : Driver → String
  | .uploadTimer i _ => i
  | .handoff i => i
  | .processTimer i => i

/-- The `DocumentUpload` component state: the `files` slot plus the set of
timers currently registered with the event loop. -/
structure UploadState where
  files : List UploadedFile
  timers : List Driver
deriving DecidableEq, Repr

/-- The component's initial state: no files, no timers. -/
def initUploadState : UploadState := { files := [], timers := [] }

/-- Rational addition, written through `mkRat` so that concrete states
evaluate; `ratAdd_eq` identifies it with `+` on `ℚ`. -/
def ratAdd (a b : ℚ) : ℚ := mkRat (a.num * b.den + b.num * a.den) (a.den * b.den)

/-- One descriptor of `handleFileUpload`'s input (`FileList` entry together
with the locally generated random id of line 74). -/
structure FileDesc where
  id : String
  name : String
  size : Nat
deriving DecidableEq, Repr

/-- Is this driver the upload interval for record `i`? -/
def isUploadTimerFor (i : String) : Driver → Bool
  | .uploadTimer j _ => j = i
  | _ => false

/-- The closure-local `progress` counter of the upload interval for `i`, when
that interval is still registered. -/
def findUploadLocal (ts : List Driver) (i : String) : Option ℚ :=
  ts.findSome? fun d =>
    match d with
    | .uploadTimer j l => if j = i then some l else none
    | _ => none

/-- `handleFileUpload` (lines 70-87): append one `uploading` record at
progress 0 per descriptor, and start an upload interval (with closure-local
counter 0) for each — the synchronous part of `simulateFileProcessing`. -/
def handleFileUpload (now : Nat) (descs : List FileDesc) (s : UploadState) : UploadState :=
  { files := s.files ++ descs.map (fun d =>
      { id := d.id, name := d.name, size := d.size, status := .uploading,
        progress := 0, uploadedAt := now, error := none })
    timers := s.timers ++ descs.map (fun d => .uploadTimer d.id 0) }

/-- One tick of the upload interval for `i` with random increment `inc`
(lines 35-67): if that interval is still registered, advance its local
counter; at or past 100, clear the interval, map the record with that id to
`processing` at progress 0 (no status check in the source) and register the
hand-off timeout; otherwise store the advanced counter as the record's
progress (again with no status check). Without the interval the event is a
no-op. -/
def uploadIntervalTick (i : String) (inc : ℚ) (s : UploadState) : UploadState :=
  match findUploadLocal s.timers i with
  | none => s
  | some l =>
    let l' := ratAdd l inc
    if 100 ≤ l' then
      { files := s.files.map (fun f =>
          if f.id = i then { f with status := .processing, progress := 0 } else f)
        timers := s.timers.filter (fun d => ¬ isUploadTimerFor i d) ++ [.handoff i] }
    else
      { files := s.files.map (fun f => if f.id = i then { f with progress := l' } else f)
        timers := s.timers.map (fun d =>
          match d with
          | .uploadTimer j _ => if j = i then .uploadTimer j l' else d
          | _ => d) }

/-- Firing of the hand-off `setTimeout` for `i` (lines 47-61): replace it by
the processing interval. No file is touched. -/
def handoffTimeout (i : String) (s : UploadState) : UploadState :=
  if (Driver.handoff i) ∈ s.timers then
    { files := s.files
      timers := s.timers.filter (fun d => d ≠ .handoff i) ++ [.processTimer i] }
  else s

/-- One tick of the processing interval for `i` with random increment `inc`
(lines 48-60): map the record with that id and status `processing` either to
`ready` at progress 100 (at or past 100, also clearing the interval — the
`clearInterval` sits inside the map callback, so it only runs when such a
record exists) or to its incremented progress. -/
def processingIntervalTick (i : String) (inc : ℚ) (s : UploadState) : UploadState :=
  if (Driver.processTimer i) ∈ s.timers then
    let fires := s.files.any (fun f => f.id = i && f.status = .processing && 100 ≤ ratAdd f.progress inc)
    { files := s.files.map (fun f =>
        if f.id = i ∧ f.status = .processing then
          if 100 ≤ ratAdd f.progress inc then { f with status := .ready, progress := 100 }
          else { f with progress := ratAdd f.progress inc }
        else f)
      timers := if fires then s.timers.filter (fun d => d ≠ .processTimer i) else s.timers }
  else s

/-- `removeFile` (lines 99-101): filter the record out of the files list.
No timer is cleared — the source keeps no handle to them. -/
def removeFile (i : String) (s : UploadState) : UploadState :=
  { s with files := s.files.filter (fun f => f.id ≠ i) }

/-- Modelled from the spec: the externally supplied error description of
§4.2 ("`error`: reachable only via an externally supplied error
description"). The source has the `error` state and field but no code path
setting them; following the spec's words, the external supplier marks a
record still in a transfer phase (`uploading` or `processing`) as `error`
with the given description. -/
def setRecordError (i : String) (msg : String) (s : UploadState) : UploadState :=
  { s with files := s.files.map (fun f =>
      if f.id = i ∧ (f.status = .uploading ∨ f.status = .processing) then
        { f with status := .error, error := some msg }
      else f) }

/-- Events of the upload component. -/
inductive UploadEvent
  | addFiles (descs : List FileDesc) (now : Nat)
  | uploadTick (fileId : String) (inc : ℚ)
  | handoffFire (fileId : String)
  | processTick (fileId : String) (inc : ℚ)
  | removeRecord (fileId : String)
  | setError (fileId : String) (msg : String)
deriving DecidableEq, Repr

/-- One step of the upload component. -/
def uploadStep (e : UploadEvent) (s : UploadState) : UploadState :=
  match e with
  | .addFiles descs now => handleFileUpload now descs s
  | .uploadTick i inc => uploadIntervalTick i inc s
  | .handoffFire i => handoffTimeout i s
  | .processTick i inc => processingIntervalTick i inc s
  | .removeRecord i => removeFile i s
  | .setError i msg => setRecordError i msg s

/-- Fold an event trace over the upload component. -/
def runUpload (s : UploadState) : List UploadEvent → UploadState
  | [] => s
  | e :: tr => runUpload (uploadStep e s) tr

/-- Wellformedness of one event against the current state: random increments
are nonnegative (`Math.random()` is), and the ids generated for added files
are locally unique — pairwise distinct and unused by existing records and by
still-registered timers. -/
def eventWF (s : UploadState) : UploadEvent → Prop
  | .addFiles descs _ =>
      descs.Pairwise (fun a b => a.id ≠ b.id) ∧
      ∀ d ∈ descs, (∀ f ∈ s.files, f.id ≠ d.id) ∧ (∀ t ∈ s.timers, t.fileId ≠ d.id)
  | .uploadTick _ inc => 0 ≤ inc
  | .processTick _ inc => 0 ≤ inc
  | _ => True

/-- Wellformedness of a whole trace from a given state. -/
def TraceWF (s : UploadState) : List UploadEvent → Prop
  | [] => True
  | e :: tr => eventWF s e ∧ TraceWF (uploadStep e s) tr

/-- Is this event an invocation of the (spec-modelled) external error
supplier? -/
def isSetErrorEvent : UploadEvent → Bool
  | .setError _ _ => true
  | _ => false

/-- Does the trace avoid the (spec-modelled) external error supplier? -/
def noSetError (tr : List UploadEvent) : Prop :=
  ∀ e ∈ tr, isSetErrorEvent e = false

/-- The record with id `i`, if present. -/
def lookupFile (s : UploadState) (i : String) : Option UploadedFile :=
  s.files.find? (fun f => f.id = i)

/-- Bounds on one record's progress: within [0,100], pinned to 100 exactly in
the `ready` state. -/
def fileBoundsOK (f : UploadedFile) : Prop :=
  0 ≤ f.progress ∧ f.progress ≤ 100 ∧
  (f.status = .ready → f.progress = 100) ∧
  (f.status ≠ .ready → f.progress < 100)

/-- Consistency of one registered driver with the files list: an upload
interval's closure-local counter lies in [0,100) and dominates the progress
of the record with its id, which can only be in the `uploading` state or the
(externally marked) `error` state. -/
def driverOK (s : UploadState) : Driver → Prop
  | .uploadTimer i l =>
      0 ≤ l ∧ l < 100 ∧
      ∀ f ∈ s.files, f.id = i →
        (f.status = .uploading ∨ f.status = .error) ∧ f.progress ≤ l
  | _ => True

/-- State invariant of the upload component (see `uploadInv_step`): at most
one driver per record id; record ids pairwise distinct; progress bounds on
each record; every registered upload interval consistent with the files
list. -/
def UploadInv (s : UploadState) : Prop :=
  s.timers.Pairwise (fun a b => a.fileId ≠ b.fileId) ∧
  s.files.Pairwise (fun a b => a.id ≠ b.id) ∧
  (∀ f ∈ s.files, fileBoundsOK f) ∧
  (∀ t ∈ s.timers, driverOK s t)

/-- The bounds on an upload interval's closure-local counter alone. -/
def timerLocalOK : Driver → Prop
  | .uploadTimer _ l => 0 ≤ l ∧ l < 100
  | _ => True

/-- The progress-bounds fragment of the invariant: every stored progress lies
in [0,100] and every upload interval's closure-local counter in [0,100). -/
def BoundsInv (s : UploadState) : Prop :=
  (∀ f ∈ s.files, 0 ≤ f.progress ∧ f.progress ≤ 100) ∧
  (∀ t ∈ s.timers, timerLocalOK t)

/-- No record is in the (externally supplied) `error` state. -/
def NoErrRecords (s : UploadState) : Prop :=
  ∀ f ∈ s.files, f.status ≠ UploadStatus.error

/-! ### Document catalog data model (DocumentManagement component) -/

/-- The `Document` interface of the catalog view. -/
structure Document where
  chunks_count : Nat
  id : Nat
  source : String
  doc_type : String
  nameSpace : String
  created_at : String
  content_preview : String
deriving DecidableEq, Repr

/-- The `ApiResponse` interface of the `/documents` endpoint. -/
structure ListResponse where
  documents : List Document
  total : Nat
  limit : Nat
  offset : Nat
deriving DecidableEq, Repr

/-- The `DocumentManagement` component state (the three fetch-related
`useState` slots). -/
structure DocState where
  documents : List Document
  loading : Bool
  error : Option String
deriving DecidableEq, Repr

/-- Initial catalog state: empty list, loading, no error. -/
def initDocState : DocState := { documents := [], loading := true, error := none }

/-- Synchronous prefix of `fetchDocuments` (lines 150-151): set loading,
clear the error. The document list is not touched. -/
def fetchStart (s : DocState) : DocState := { s with loading := true, error := none }

/-- Success continuation of `fetchDocuments` (lines 158-159 plus the
`finally`): store the returned documents, clear loading. -/
def fetchSuccess (resp : ListResponse) (s : DocState) : DocState :=
  { s with documents := resp.documents, loading := false }

/-- Failure continuation of `fetchDocuments` (lines 160-165): store the error
message, clear loading. The document list is not touched. -/
def fetchFailure (msg : String) (s : DocState) : DocState :=
  { s with error := some msg, loading := false }

/-- Whether the error banner of lines 230-235 is rendered: exactly when the
`error` slot is non-null. -/
def errorBannerShown (s : DocState) : Bool := s.error.isSome

/-! ### Decidability of the invariants (for concrete witnesses) -/

instance (s : ChatState) : Decidable (ChatInv s) := by
  unfold ChatInv; infer_instance

instance (f : UploadedFile) : Decidable (fileBoundsOK f) := by
  unfold fileBoundsOK; infer_instance

instance (s : UploadState) (t : Driver) : Decidable (driverOK s t) := by
  cases t <;> (unfold driverOK; infer_instance)

instance (s : UploadState) : Decidable (UploadInv s) := by
  unfold UploadInv; infer_instance

instance (s : UploadState) (e : UploadEvent) : Decidable (eventWF s e) := by
  cases e <;> (unfold eventWF; infer_instance)

/-- Decidability of trace wellformedness, by recursion on the trace. -/
def decTraceWF : (s : UploadState) → (tr : List UploadEvent) → Decidable (TraceWF s tr)
  | _, [] => isTrue trivial
  | s, e :: tr => @instDecidableAnd _ _ _ (decTraceWF (uploadStep e s) tr)

instance (s : UploadState) (tr : List UploadEvent) : Decidable (TraceWF s tr) :=
  decTraceWF s tr

/-- `ratAdd` is rational addition. -/
@[simp] theorem ratAdd_eq (a b : ℚ) : ratAdd a b = a + b := by
  have ha : ((a.den : ℚ)) ≠ 0 := by
    exact_mod_cast a.den_nz
  have hb : ((b.den : ℚ)) ≠ 0 := by
    exact_mod_cast b.den_nz
  unfold ratAdd
  rw [Rat.mkRat_eq_div]
  conv_rhs => rw [← Rat.num_div_den a, ← Rat.num_div_den b]
  push_cast
  field_simp

/-! ### Decimal representations never collide with the placeholder id

`handleSendMessage` filters the typing placeholder by the literal id
`"typing"`, while all other message ids are decimal renderings of
`Date.now()`; these lemmas separate the two. -/

theorem digitChar_isDigit_lt10 : ∀ m : Nat, m < 10 → (Nat.digitChar m).isDigit = true := by
  decide

theorem toDigitsCore_digits :
    ∀ (f n : Nat) (l : List Char), (∀ c ∈ l, c.isDigit = true) →
      ∀ c ∈ Nat.toDigitsCore 10 f n l, c.isDigit = true := by
  intro f
  induction f with
  | zero => intro n l hl c hc; exact hl c hc
  | succ f ih =>
    intro n l hl c hc
    have hd : (Nat.digitChar (n % 10)).isDigit = true :=
      digitChar_isDigit_lt10 _ (Nat.mod_lt _ (by norm_num))
    have hl' : ∀ x ∈ Nat.digitChar (n % 10) :: l, x.isDigit = true := by
      intro x hx
      cases hx with
      | head => exact hd
      | tail _ hx => exact hl x hx
    rw [Nat.toDigitsCore] at hc
    by_cases h : n / 10 = 0
    · simp only [h, if_true] at hc
      exact hl' c hc
    · simp only [h, if_false] at hc
      exact ih (n / 10) (Nat.digitChar (n % 10) :: l) hl' c hc

theorem natRepr_all_digits (n : Nat) : ∀ c ∈ (Nat.repr n).data, c.isDigit = true := by
  intro c hc
  exact toDigitsCore_digits (n + 1) n [] (by intro x hx; cases hx) c hc

theorem natRepr_ne_typing (n : Nat) : Nat.repr n ≠ "typing" := by
  intro h
  have ht : ('t' : Char) ∈ (Nat.repr n).data := by rw [h]; decide
  have := natRepr_all_digits n 't' ht
  exact absurd this (by decide)

/-! ### Mode selection and setter lemmas -/

@[simp] theorem ChatMode.other_customer : ChatMode.other .customer = .internal := rfl

@[simp] theorem ChatMode.other_internal : ChatMode.other .internal = .customer := rfl

theorem ChatMode.other_ne (m : ChatMode) : m.other ≠ m := by
  cases m <;> simp

theorem ChatMode.other_other (m : ChatMode) : m.other.other = m := by
  cases m <;> rfl

theorem ChatMode.eq_other_of_ne {m m' : ChatMode} (h : m' ≠ m) : m' = m.other := by
  cases m <;> cases m' <;> simp_all

@[simp] theorem msgsOf_setMsgs_same (s : ChatState) (m : ChatMode) (l : List ChatMessage) :
    msgsOf (setMsgs s m l) m = l := by
  cases m <;> rfl

theorem msgsOf_setMsgs_ne (s : ChatState) (l : List ChatMessage) {m m' : ChatMode}
    (h : m' ≠ m) : msgsOf (setMsgs s m l) m' = msgsOf s m' := by
  cases m <;> cases m' <;> simp_all <;> rfl

@[simp] theorem msgsOf_setMsgs_other (s : ChatState) (m : ChatMode) (l : List ChatMessage) :
    msgsOf (setMsgs s m l) m.other = msgsOf s m.other :=
  msgsOf_setMsgs_ne s l (ChatMode.other_ne m)

@[simp] theorem tokenOf_setMsgs (s : ChatState) (m m' : ChatMode) (l : List ChatMessage) :
    tokenOf (setMsgs s m l) m' = tokenOf s m' := by
  cases m <;> cases m' <;> rfl

@[simp] theorem pending_setMsgs (s : ChatState) (m : ChatMode) (l : List ChatMessage) :
    (setMsgs s m l).pending = s.pending := by
  cases m <;> rfl

@[simp] theorem activeMode_setMsgs (s : ChatState) (m : ChatMode) (l : List ChatMessage) :
    (setMsgs s m l).activeMode = s.activeMode := by
  cases m <;> rfl

@[simp] theorem isLoading_setMsgs (s : ChatState) (m : ChatMode) (l : List ChatMessage) :
    (setMsgs s m l).isLoading = s.isLoading := by
  cases m <;> rfl

@[simp] theorem inputValue_setMsgs (s : ChatState) (m : ChatMode) (l : List ChatMessage) :
    (setMsgs s m l).inputValue = s.inputValue := by
  cases m <;> rfl

@[simp] theorem tokenOf_setToken_same (s : ChatState) (m : ChatMode) (v : Option String) :
    tokenOf (setToken s m v) m = v := by
  cases m <;> rfl

theorem tokenOf_setToken_ne (s : ChatState) (v : Option String) {m m' : ChatMode}
    (h : m' ≠ m) : tokenOf (setToken s m v) m' = tokenOf s m' := by
  cases m <;> cases m' <;> simp_all <;> rfl

@[simp] theorem tokenOf_setToken_other (s : ChatState) (m : ChatMode) (v : Option String) :
    tokenOf (setToken s m v) m.other = tokenOf s m.other :=
  tokenOf_setToken_ne s v (ChatMode.other_ne m)

@[simp] theorem msgsOf_setToken (s : ChatState) (m m' : ChatMode) (v : Option String) :
    msgsOf (setToken s m v) m' = msgsOf s m' := by
  cases m <;> cases m' <;> rfl

@[simp] theorem pending_setToken (s : ChatState) (m : ChatMode) (v : Option String) :
    (setToken s m v).pending = s.pending := by
  cases m <;> rfl

@[simp] theorem activeMode_setToken (s : ChatState) (m : ChatMode) (v : Option String) :
    (setToken s m v).activeMode = s.activeMode := by
  cases m <;> rfl

@[simp] theorem isLoading_setToken (s : ChatState) (m : ChatMode) (v : Option String) :
    (setToken s m v).isLoading = s.isLoading := by
  cases m <;> rfl

@[simp] theorem customerMessages_setMsgs_customer (s : ChatState) (l : List ChatMessage) :
    (setMsgs s .customer l).customerMessages = l := rfl

@[simp] theorem internalMessages_setMsgs_internal (s : ChatState) (l : List ChatMessage) :
    (setMsgs s .internal l).internalMessages = l := rfl

@[simp] theorem internalMessages_setMsgs_customer (s : ChatState) (l : List ChatMessage) :
    (setMsgs s .customer l).internalMessages = s.internalMessages := rfl

@[simp] theorem customerMessages_setMsgs_internal (s : ChatState) (l : List ChatMessage) :
    (setMsgs s .internal l).customerMessages = s.customerMessages := rfl

@[simp] theorem msgsOf_customer (s : ChatState) : msgsOf s .customer = s.customerMessages := rfl

@[simp] theorem msgsOf_internal (s : ChatState) : msgsOf s .internal = s.internalMessages := rfl

/-! ### Counting typing placeholders -/

theorem idTypingCount_append (l1 l2 : List ChatMessage) :
    idTypingCount (l1 ++ l2) = idTypingCount l1 + idTypingCount l2 := by
  simp [idTypingCount]

theorem idTypingCount_filter_ne (l : List ChatMessage) :
    idTypingCount (l.filter fun m => m.id ≠ "typing") = 0 := by
  simp only [idTypingCount, List.countP_filter]
  simp

theorem idTypingCount_nil : idTypingCount [] = 0 := rfl

theorem idTypingCount_single (m : ChatMessage) :
    idTypingCount [m] = if m.id = "typing" then 1 else 0 := by
  simp [idTypingCount, List.countP_cons]

theorem length_filter_ne_typing (l : List ChatMessage) :
    (l.filter fun m => m.id ≠ "typing").length + idTypingCount l = l.length := by
  induction l with
  | nil => rfl
  | cons m l ih =>
    by_cases h : m.id = "typing" <;>
      simp [idTypingCount, List.countP_cons, h, List.filter_cons] at * <;> omega

theorem typingFlagCount_le_idTypingCount (l : List ChatMessage)
    (h : ∀ m ∈ l, m.isTyping = true → m.id = "typing") :
    typingFlagCount l ≤ idTypingCount l := by
  exact List.countP_mono_left (by intro m hm hp; simpa using h m hm (by simpa using hp))

/-! ### Preservation of the chat invariant -/

theorem msgsOf_congr {s s' : ChatState} (hc : s'.customerMessages = s.customerMessages)
    (hi : s'.internalMessages = s.internalMessages) (m : ChatMode) :
    msgsOf s' m = msgsOf s m := by
  cases m <;> simp [hc, hi]

theorem tokenOf_congr {s s' : ChatState} (hc : s'.customerSessionId = s.customerSessionId)
    (hi : s'.internalSessionId = s.internalSessionId) (m : ChatMode) :
    tokenOf s' m = tokenOf s m := by
  cases m <;> simp [tokenOf, hc, hi]

theorem chatInv_of_eq {s s' : ChatState} (h : ChatInv s)
    (hc : s'.customerMessages = s.customerMessages)
    (hi : s'.internalMessages = s.internalMessages)
    (hcs : s'.customerSessionId = s.customerSessionId)
    (his : s'.internalSessionId = s.internalSessionId)
    (hl : s'.isLoading = s.isLoading)
    (hp : s'.pending = s.pending) : ChatInv s' := by
  obtain ⟨h1, h2, h3, h4, h5, h6⟩ := h
  refine ⟨?_, ?_, ?_, ?_, ?_, ?_⟩
  · rw [hp]; exact h1
  · rw [hp, hl]; exact h2
  · rw [hp, hc, hi]; exact h3
  · rw [hp]
    intro c hcm
    rw [tokenOf_congr hcs his, msgsOf_congr hc hi, msgsOf_congr hc hi]
    exact h4 c hcm
  · rw [hc]; exact h5
  · rw [hi]; exact h6

theorem chatInv_initChatState (t : Nat) : ChatInv (initChatState t) := by
  refine ⟨?_, ?_, ?_, ?_, ?_, ?_⟩ <;>
    simp [initChatState, idTypingCount, List.countP_cons]

theorem chatInv_clearChat (now : Nat) (s : ChatState) (h : ChatInv s) :
    ChatInv (clearChat now s) := by
  obtain ⟨h1, h2, h3, h4, h5, h6⟩ := h
  unfold clearChat
  have hw0 : ∀ content : String,
      idTypingCount [{ id := Nat.repr now, type := .system, content := content,
                       timestamp := now, sources := [], isTyping := false }] = 0 := by
    intro content
    rw [idTypingCount_single]
    simp [natRepr_ne_typing now]
  refine ⟨?_, ?_, ?_, ?_, ?_, ?_⟩
  · simpa using h1
  · simpa using h2
  · intro hp
    rw [pending_setMsgs] at hp
    cases ham : s.activeMode <;>
      simp_all [setMsgs, idTypingCount, List.countP_cons, natRepr_ne_typing now]
  · intro c hcm
    rw [pending_setMsgs] at hcm
    refine ⟨by rw [tokenOf_setMsgs]; exact (h4 c hcm).1, ?_, ?_⟩
    · by_cases hm : c.mode = s.activeMode
      · rw [hm, msgsOf_setMsgs_same, hw0]
        omega
      · rw [msgsOf_setMsgs_ne _ _ hm]
        exact (h4 c hcm).2.1
    · by_cases hm : c.mode.other = s.activeMode
      · rw [hm, msgsOf_setMsgs_same, hw0]
      · rw [msgsOf_setMsgs_ne _ _ hm]
        exact (h4 c hcm).2.2
  · cases ham : s.activeMode <;> simp_all [setMsgs]
  · cases ham : s.activeMode <;> simp_all [setMsgs]

theorem flagId_filter_append (l : List ChatMessage) (a : ChatMessage)
    (hl : ∀ m ∈ l, m.isTyping = true → m.id = "typing") (ha : a.isTyping = false) :
    ∀ m ∈ (l.filter fun m => m.id ≠ "typing") ++ [a], m.isTyping = true → m.id = "typing" := by
  intro m hm ht
  rcases List.mem_append.mp hm with hf | hs
  · exact hl m (List.mem_filter.mp hf).1 ht
  · rw [List.mem_singleton] at hs
    subst hs
    rw [ha] at ht
    cases ht

theorem idTypingCount_replaced (l : List ChatMessage) (a : ChatMessage)
    (ha : a.id ≠ "typing") :
    idTypingCount ((l.filter fun m => m.id ≠ "typing") ++ [a]) = 0 := by
  rw [idTypingCount_append, idTypingCount_filter_ne, idTypingCount_single, if_neg ha]

theorem chatInv_send (now : Nat) (s : ChatState) (h : ChatInv s) :
    ChatInv (handleSendMessageStart now s) := by
  obtain ⟨h1, h2, h3, h4, h5, h6⟩ := h
  unfold handleSendMessageStart
  by_cases hg : trimString s.inputValue = "" ∨ s.isLoading
  · rw [if_pos hg]
    exact ⟨h1, h2, h3, h4, h5, h6⟩
  · rw [if_neg hg]
    have hnl : s.isLoading = false := by
      rcases Bool.eq_false_or_eq_true s.isLoading with hb | hb
      · exact absurd (Or.inr (by simp [hb])) hg
      · exact hb
    have hp0 : s.pending = [] := by
      by_contra hne
      rw [hnl] at h2
      exact absurd (h2.mpr hne) (by simp)
    obtain ⟨hcc, hci⟩ := h3 hp0
    have hcc' : ∀ a ∈ s.customerMessages, ¬ a.id = "typing" := by
      intro a hax
      simpa using List.countP_eq_zero.mp hcc a hax
    have hci' : ∀ a ∈ s.internalMessages, ¬ a.id = "typing" := by
      intro a hax
      simpa using List.countP_eq_zero.mp hci a hax
    cases ham : s.activeMode
    all_goals
      refine ⟨?_, ?_, ?_, ?_, ?_, ?_⟩
      · simp [setMsgs, hp0]
      · simp [setMsgs, hp0]
      · intro hp
        simp [setMsgs, hp0] at hp
      · intro c hcm
        simp only [setMsgs, hp0, List.nil_append, List.mem_singleton] at hcm
        subst hcm
        refine ⟨rfl, ?_, ?_⟩
        · simp [setMsgs, msgsOf, idTypingCount, List.countP_cons, List.countP_append,
                natRepr_ne_typing now, hcc', hci']
          all_goals first | exact hcc' | exact hci'
        · simp [setMsgs, msgsOf, ChatMode.other, idTypingCount, List.countP_eq_zero, hcc', hci']
          all_goals first | exact hcc' | exact hci'
      · intro m hm ht
        simp only [setMsgs] at hm
        first
        | exact h5 m hm ht
        | (rcases List.mem_append.mp hm with hold | hnew
           · exact h5 m hold ht
           · simp only [List.mem_cons, List.mem_singleton, List.not_mem_nil, or_false] at hnew
             rcases hnew with rfl | rfl
             · simp at ht
             · rfl)
      · intro m hm ht
        simp only [setMsgs] at hm
        first
        | exact h6 m hm ht
        | (rcases List.mem_append.mp hm with hold | hnew
           · exact h6 m hold ht
           · simp only [List.mem_cons, List.mem_singleton, List.not_mem_nil, or_false] at hnew
             rcases hnew with rfl | rfl
             · simp at ht
             · rfl)

@[simp] theorem customerMessages_setToken (s : ChatState) (m : ChatMode) (v : Option String) :
    (setToken s m v).customerMessages = s.customerMessages := by
  cases m <;> rfl

@[simp] theorem internalMessages_setToken (s : ChatState) (m : ChatMode) (v : Option String) :
    (setToken s m v).internalMessages = s.internalMessages := by
  cases m <;> rfl

theorem chatInv_replaceTyping (s : ChatState) (mo : ChatMode) (a : ChatMessage)
    (h5 : ∀ msg ∈ s.customerMessages, msg.isTyping = true → msg.id = "typing")
    (h6 : ∀ msg ∈ s.internalMessages, msg.isTyping = true → msg.id = "typing")
    (hcnt0 : idTypingCount (msgsOf s mo.other) = 0)
    (hp : s.pending = [])
    (ha_id : a.id ≠ "typing") (ha_flag : a.isTyping = false) :
    ChatInv { replaceTyping s mo a with isLoading := false } := by
  refine ⟨?_, ?_, ?_, ?_, ?_, ?_⟩
  · simp [replaceTyping, hp]
  · simp [replaceTyping, hp]
  · intro _
    constructor
    · show idTypingCount (msgsOf (replaceTyping s mo a) ChatMode.customer) = 0
      by_cases hm : mo = ChatMode.customer
      · rw [replaceTyping, hm, msgsOf_setMsgs_same]
        exact idTypingCount_replaced _ _ ha_id
      · have hoth : ChatMode.customer = mo.other :=
          ChatMode.eq_other_of_ne (fun hh => hm hh.symm)
        rw [replaceTyping, hoth, msgsOf_setMsgs_other, ← hoth]
        rw [hoth]
        exact hcnt0
    · show idTypingCount (msgsOf (replaceTyping s mo a) ChatMode.internal) = 0
      by_cases hm : mo = ChatMode.internal
      · rw [replaceTyping, hm, msgsOf_setMsgs_same]
        exact idTypingCount_replaced _ _ ha_id
      · have hoth : ChatMode.internal = mo.other :=
          ChatMode.eq_other_of_ne (fun hh => hm hh.symm)
        rw [replaceTyping, hoth, msgsOf_setMsgs_other]
        exact hcnt0
  · intro c' hc'
    simp [replaceTyping, hp] at hc'
  · intro m hm ht
    have hm' : m ∈ msgsOf (replaceTyping s mo a) ChatMode.customer := hm
    by_cases hmo : mo = ChatMode.customer
    · rw [replaceTyping, hmo, msgsOf_setMsgs_same] at hm'
      exact flagId_filter_append _ a h5 ha_flag m hm' ht
    · have hoth : ChatMode.customer = mo.other :=
        ChatMode.eq_other_of_ne (fun hh => hmo hh.symm)
      rw [replaceTyping, hoth, msgsOf_setMsgs_other, ← hoth] at hm'
      exact h5 m hm' ht
  · intro m hm ht
    have hm' : m ∈ msgsOf (replaceTyping s mo a) ChatMode.internal := hm
    by_cases hmo : mo = ChatMode.internal
    · rw [replaceTyping, hmo, msgsOf_setMsgs_same] at hm'
      exact flagId_filter_append _ a h6 ha_flag m hm' ht
    · have hoth : ChatMode.internal = mo.other :=
        ChatMode.eq_other_of_ne (fun hh => hmo hh.symm)
      rw [replaceTyping, hoth, msgsOf_setMsgs_other, ← hoth] at hm'
      exact h6 m hm' ht

theorem chatInv_resolve (now : Nat) (c : PendingCall) (r : ApiResult) (s : ChatState)
    (h : ChatInv s) (hcp : c ∈ s.pending) :
    ChatInv (handleSendMessageResolve now c r { s with pending := [] }) := by
  obtain ⟨h1, h2, h3, h4, h5, h6⟩ := h
  obtain ⟨hsess, hcnt1, hcnt0⟩ := h4 c hcp
  unfold handleSendMessageResolve
  apply chatInv_replaceTyping
  · intro m hm ht
    split at hm
    · simp only [customerMessages_setToken] at hm
      exact h5 m hm ht
    · exact h5 m hm ht
  · intro m hm ht
    split at hm
    · simp only [internalMessages_setToken] at hm
      exact h6 m hm ht
    · exact h6 m hm ht
  · show idTypingCount (msgsOf _ c.mode.other) = 0
    split
    · rw [msgsOf_setToken, msgsOf_congr rfl rfl]
      exact hcnt0
    · rw [msgsOf_congr rfl rfl]
      exact hcnt0
  · split
    · rw [pending_setToken]
    · rfl
  · exact natRepr_ne_typing (now + 1)
  · rfl

theorem chatInv_fail (now : Nat) (c : PendingCall) (s : ChatState)
    (h : ChatInv s) (hcp : c ∈ s.pending) :
    ChatInv (handleSendMessageFail now c { s with pending := [] }) := by
  obtain ⟨h1, h2, h3, h4, h5, h6⟩ := h
  obtain ⟨hsess, hcnt1, hcnt0⟩ := h4 c hcp
  unfold handleSendMessageFail
  apply chatInv_replaceTyping
  · exact fun m hm ht => h5 m hm ht
  · exact fun m hm ht => h6 m hm ht
  · rw [msgsOf_congr rfl rfl]
    exact hcnt0
  · rfl
  · exact natRepr_ne_typing (now + 1)
  · rfl

theorem chatInv_step (now : Nat) (e : ChatEvent) (s : ChatState) (h : ChatInv s) :
    ChatInv (chatStep now e s) := by
  cases e with
  | setInput v => exact chatInv_of_eq h rfl rfl rfl rfl rfl rfl
  | switchMode m => exact chatInv_of_eq h rfl rfl rfl rfl rfl rfl
  | clearChat => exact chatInv_clearChat now s h
  | send => exact chatInv_send now s h
  | resolve i r =>
      cases hsp : s.pending with
      | nil =>
        unfold chatStep
        rw [hsp]
        cases i <;> exact h
      | cons c0 tl =>
        have h1 := h.1
        rw [hsp] at h1
        have htl : tl = [] := by
          cases tl
          · rfl
          · simp at h1
        subst htl
        have hcp : c0 ∈ s.pending := by
          rw [hsp]
          exact List.Mem.head _
        unfold chatStep
        rw [hsp]
        cases i with
        | zero => exact chatInv_resolve now c0 r s h hcp
        | succ j => cases j <;> exact h
  | failCall i =>
      cases hsp : s.pending with
      | nil =>
        unfold chatStep
        rw [hsp]
        cases i <;> exact h
      | cons c0 tl =>
        have h1 := h.1
        rw [hsp] at h1
        have htl : tl = [] := by
          cases tl
          · rfl
          · simp at h1
        subst htl
        have hcp : c0 ∈ s.pending := by
          rw [hsp]
          exact List.Mem.head _
        unfold chatStep
        rw [hsp]
        cases i with
        | zero => exact chatInv_fail now c0 s h hcp
        | succ j => cases j <;> exact h

theorem chatInv_runChat (tr : List (Nat × ChatEvent)) :
    ∀ s : ChatState, ChatInv s → ChatInv (runChat s tr) := by
  induction tr with
  | nil => exact fun s h => h
  | cons p tr ih =>
    intro s h
    obtain ⟨t, e⟩ := p
    exact ih _ (chatInv_step t e s h)

/-! ### Projections of the two `handleSendMessage` continuations -/

theorem msgsOf_resolve_same (now : Nat) (c : PendingCall) (r : ApiResult) (s : ChatState) :
    msgsOf (handleSendMessageResolve now c r s) c.mode
      = (msgsOf s c.mode).filter (fun x => x.id ≠ "typing") ++
        [{ id := Nat.repr (now + 1), type := .assistant, content := r.answer,
           timestamp := now, sources := [], isTyping := false }] := by
  unfold handleSendMessageResolve replaceTyping
  split <;> cases hm : c.mode <;> simp [setMsgs, setToken, msgsOf]

theorem msgsOf_resolve_other (now : Nat) (c : PendingCall) (r : ApiResult) (s : ChatState) :
    msgsOf (handleSendMessageResolve now c r s) c.mode.other = msgsOf s c.mode.other := by
  unfold handleSendMessageResolve replaceTyping
  split <;> cases hm : c.mode <;> simp [setMsgs, setToken, msgsOf, ChatMode.other]

theorem tokenOf_resolve_other (now : Nat) (c : PendingCall) (r : ApiResult) (s : ChatState) :
    tokenOf (handleSendMessageResolve now c r s) c.mode.other = tokenOf s c.mode.other := by
  unfold handleSendMessageResolve replaceTyping
  split <;> cases hm : c.mode <;> simp [setMsgs, setToken, tokenOf, ChatMode.other]

theorem tokenOf_resolve_same (now : Nat) (c : PendingCall) (r : ApiResult) (s : ChatState) :
    tokenOf (handleSendMessageResolve now c r s) c.mode
      = (if shouldUpdateSession c.sessionId r.session_id then r.session_id
         else tokenOf s c.mode) := by
  unfold handleSendMessageResolve replaceTyping
  split <;> cases hm : c.mode <;> simp_all [setMsgs, setToken, tokenOf]

theorem activeMode_resolve (now : Nat) (c : PendingCall) (r : ApiResult) (s : ChatState) :
    (handleSendMessageResolve now c r s).activeMode = s.activeMode := by
  unfold handleSendMessageResolve replaceTyping
  split <;> cases hm : c.mode <;> simp [setMsgs, setToken]

theorem pending_resolve (now : Nat) (c : PendingCall) (r : ApiResult) (s : ChatState) :
    (handleSendMessageResolve now c r s).pending = s.pending := by
  unfold handleSendMessageResolve replaceTyping
  split <;> cases hm : c.mode <;> simp [setMsgs, setToken]

theorem isLoading_resolve (now : Nat) (c : PendingCall) (r : ApiResult) (s : ChatState) :
    (handleSendMessageResolve now c r s).isLoading = false := rfl

theorem msgsOf_fail_same (now : Nat) (c : PendingCall) (s : ChatState) :
    msgsOf (handleSendMessageFail now c s) c.mode
      = (msgsOf s c.mode).filter (fun x => x.id ≠ "typing") ++
        [{ id := Nat.repr (now + 1), type := .assistant, content := chatErrorText,
           timestamp := now, sources := [], isTyping := false }] := by
  unfold handleSendMessageFail replaceTyping
  cases hm : c.mode <;> simp [setMsgs, msgsOf]

theorem msgsOf_fail_other (now : Nat) (c : PendingCall) (s : ChatState) :
    msgsOf (handleSendMessageFail now c s) c.mode.other = msgsOf s c.mode.other := by
  unfold handleSendMessageFail replaceTyping
  cases hm : c.mode <;> simp [setMsgs, msgsOf, ChatMode.other]

theorem tokenOf_fail (now : Nat) (c : PendingCall) (s : ChatState) (m : ChatMode) :
    tokenOf (handleSendMessageFail now c s) m = tokenOf s m := by
  unfold handleSendMessageFail replaceTyping
  cases hm : c.mode <;> cases m <;> simp [setMsgs, tokenOf]

theorem activeMode_fail (now : Nat) (c : PendingCall) (s : ChatState) :
    (handleSendMessageFail now c s).activeMode = s.activeMode := by
  unfold handleSendMessageFail replaceTyping
  cases hm : c.mode <;> simp [setMsgs]

theorem pending_fail (now : Nat) (c : PendingCall) (s : ChatState) :
    (handleSendMessageFail now c s).pending = s.pending := by
  unfold handleSendMessageFail replaceTyping
  cases hm : c.mode <;> simp [setMsgs]

theorem isLoading_fail (now : Nat) (c : PendingCall) (s : ChatState) :
    (handleSendMessageFail now c s).isLoading = false := rfl

/-! ### The synchronous prefix of a successful send -/

@[simp] theorem msgsOf_inputUpd (s : ChatState) (q : String) (m : ChatMode) :
    msgsOf ({ s with inputValue := q } : ChatState) m = msgsOf s m :=
  msgsOf_congr rfl rfl m

@[simp] theorem tokenOf_inputUpd (s : ChatState) (q : String) (m : ChatMode) :
    tokenOf ({ s with inputValue := q } : ChatState) m = tokenOf s m :=
  tokenOf_congr rfl rfl m

theorem isLoading_false_of_no_pending (s : ChatState) (h : ChatInv s)
    (hp : s.pending = []) : s.isLoading = false := by
  rcases Bool.eq_false_or_eq_true s.isLoading with hb | hb
  · exact absurd (h.2.1.mp hb) (by simp [hp])
  · exact hb

theorem idTypingCount_zero_of_no_pending (s : ChatState) (h : ChatInv s)
    (hp : s.pending = []) (m : ChatMode) : idTypingCount (msgsOf s m) = 0 := by
  have hc := h.2.2.1 hp
  cases m
  · exact hc.1
  · exact hc.2

theorem send_go_projections (now : Nat) (s : ChatState)
    (hg : ¬(trimString s.inputValue = "" ∨ s.isLoading)) :
    (handleSendMessageStart now s).pending
      = s.pending ++ [{ mode := s.activeMode, query := s.inputValue,
                        sessionId := tokenOf s s.activeMode }] ∧
    (handleSendMessageStart now s).activeMode = s.activeMode ∧
    (handleSendMessageStart now s).isLoading = true ∧
    msgsOf (handleSendMessageStart now s) s.activeMode
      = msgsOf s s.activeMode ++
        [{ id := Nat.repr now, type := .user, content := s.inputValue,
           timestamp := now, sources := [], isTyping := false },
         { id := "typing", type := .assistant, content := "",
           timestamp := now, sources := [], isTyping := true }] ∧
    (∀ m : ChatMode, tokenOf (handleSendMessageStart now s) m = tokenOf s m) := by
  unfold handleSendMessageStart
  rw [if_neg hg]
  cases ham : s.activeMode
  all_goals
    refine ⟨rfl, ham, rfl, ?_, ?_⟩
    · simp [setMsgs, msgsOf]
    · intro m
      cases m <;> simp [setMsgs, tokenOf]

theorem idTypingCount_le_one_of_inv (s : ChatState) (h : ChatInv s) (m : ChatMode) :
    idTypingCount (msgsOf s m) ≤ 1 := by
  cases hsp : s.pending with
  | nil =>
    rw [idTypingCount_zero_of_no_pending s h hsp m]
    omega
  | cons c tl =>
    have hc := h.2.2.2.1 c (by rw [hsp]; exact List.Mem.head _)
    by_cases hm : m = c.mode
    · rw [hm]
      exact hc.2.1
    · rw [ChatMode.eq_other_of_ne hm, hc.2.2]
      omega

theorem chatStep_resolve_of_getElem (now i : Nat) (r : ApiResult) (s : ChatState)
    (c : PendingCall) (hc : s.pending[i]? = some c) :
    chatStep now (.resolve i r) s
      = handleSendMessageResolve now c r { s with pending := s.pending.eraseIdx i } := by
  simp only [chatStep]
  rw [hc]

theorem chatStep_fail_of_getElem (now i : Nat) (s : ChatState)
    (c : PendingCall) (hc : s.pending[i]? = some c) :
    chatStep now (.failCall i) s
      = handleSendMessageFail now c { s with pending := s.pending.eraseIdx i } := by
  simp only [chatStep]
  rw [hc]

theorem runCycle_facts (s : ChatState) (q : String) (t : Nat) (o : Option ApiResult)
    (h : ChatInv s) (hp : s.pending = []) (hq : trimString q ≠ "") :
    ChatInv (runCycle s (q, t, o)) ∧
    (runCycle s (q, t, o)).pending = [] ∧
    (runCycle s (q, t, o)).activeMode = s.activeMode ∧
    (msgsOf (runCycle s (q, t, o)) s.activeMode).length
      = (msgsOf s s.activeMode).length + 2 := by
  have h0 : ChatInv ({ s with inputValue := q } : ChatState) :=
    chatInv_of_eq h rfl rfl rfl rfl rfl rfl
  have hp0 : ({ s with inputValue := q } : ChatState).pending = [] := hp
  have hl0 : ({ s with inputValue := q } : ChatState).isLoading = false :=
    isLoading_false_of_no_pending _ h0 hp0
  have hg : ¬(trimString ({ s with inputValue := q } : ChatState).inputValue = ""
      ∨ ({ s with inputValue := q } : ChatState).isLoading) := by
    intro hgg
    rcases hgg with hgg | hgg
    · exact hq hgg
    · rw [hl0] at hgg
      simp at hgg
  obtain ⟨g1, g2, g3, g4, g5⟩ := send_go_projections t { s with inputValue := q } hg
  have hs1p : (chatStep t ChatEvent.send (chatStep t (ChatEvent.setInput q) s)).pending
      = [{ mode := s.activeMode, query := q, sessionId := tokenOf s s.activeMode }] := by
    have h' := g1
    simp only [tokenOf_inputUpd] at h'
    exact h'.trans (by simp [hp])
  have h1 : ChatInv (chatStep t ChatEvent.send (chatStep t (ChatEvent.setInput q) s)) :=
    chatInv_step t .send _ h0
  have hg4 : msgsOf (chatStep t ChatEvent.send (chatStep t (ChatEvent.setInput q) s)) s.activeMode
      = msgsOf s s.activeMode ++
        [{ id := Nat.repr t, type := .user, content := q,
           timestamp := t, sources := [], isTyping := false },
         { id := "typing", type := .assistant, content := "",
           timestamp := t, sources := [], isTyping := true }] := by
    have := g4
    rw [show msgsOf ({ s with inputValue := q } : ChatState) s.activeMode
        = msgsOf s s.activeMode from msgsOf_congr rfl rfl _] at this
    exact this
  have hcnt : idTypingCount (msgsOf (chatStep t ChatEvent.send
      (chatStep t (ChatEvent.setInput q) s)) s.activeMode) = 1 := by
    rw [hg4, idTypingCount_append, idTypingCount_zero_of_no_pending s h hp s.activeMode]
    simp [idTypingCount, List.countP_cons, natRepr_ne_typing t]
  have hlen1 : (msgsOf (chatStep t ChatEvent.send
      (chatStep t (ChatEvent.setInput q) s)) s.activeMode).length
      = (msgsOf s s.activeMode).length + 2 := by
    rw [hg4]
    simp
  have hgetc : (chatStep t ChatEvent.send (chatStep t (ChatEvent.setInput q) s)).pending[0]?
      = some { mode := s.activeMode, query := q, sessionId := tokenOf s s.activeMode } := by
    rw [hs1p]
    rfl
  have hera : (chatStep t ChatEvent.send (chatStep t (ChatEvent.setInput q) s)).pending.eraseIdx 0
      = ([] : List PendingCall) := by
    rw [hs1p]
    rfl
  cases o with
  | some r =>
    have hres := chatStep_resolve_of_getElem (t + 1) 0 r
      (chatStep t ChatEvent.send (chatStep t (ChatEvent.setInput q) s)) _ hgetc
    rw [hera] at hres
    refine ⟨?_, ?_, ?_, ?_⟩
    · exact chatInv_step (t + 1) (.resolve 0 r) _ h1
    · show (chatStep (t + 1) (ChatEvent.resolve 0 r) _).pending = []
      rw [hres, pending_resolve]
    · show (chatStep (t + 1) (ChatEvent.resolve 0 r) _).activeMode = s.activeMode
      rw [hres, activeMode_resolve]
      exact g2
    · show (msgsOf (chatStep (t + 1) (ChatEvent.resolve 0 r) _) s.activeMode).length = _
      rw [hres]
      have hml : msgsOf (handleSendMessageResolve (t + 1)
            { mode := s.activeMode, query := q, sessionId := tokenOf s s.activeMode } r
            { chatStep t ChatEvent.send (chatStep t (ChatEvent.setInput q) s) with pending := [] })
            s.activeMode
          = (msgsOf ({ chatStep t ChatEvent.send (chatStep t (ChatEvent.setInput q) s) with
                pending := [] } : ChatState) s.activeMode).filter (fun x => x.id ≠ "typing") ++
            [{ id := Nat.repr (t + 1 + 1), type := .assistant, content := r.answer,
               timestamp := t + 1, sources := [], isTyping := false }] :=
        msgsOf_resolve_same (t + 1) _ r _
      rw [hml, show msgsOf ({ chatStep t ChatEvent.send (chatStep t (ChatEvent.setInput q) s) with
              pending := [] } : ChatState) s.activeMode
            = msgsOf (chatStep t ChatEvent.send (chatStep t (ChatEvent.setInput q) s)) s.activeMode
          from msgsOf_congr rfl rfl _]
      have hfl := length_filter_ne_typing
        (msgsOf (chatStep t ChatEvent.send (chatStep t (ChatEvent.setInput q) s)) s.activeMode)
      rw [List.length_append, List.length_singleton]
      omega
  | none =>
    have hres := chatStep_fail_of_getElem (t + 1) 0
      (chatStep t ChatEvent.send (chatStep t (ChatEvent.setInput q) s)) _ hgetc
    rw [hera] at hres
    refine ⟨?_, ?_, ?_, ?_⟩
    · exact chatInv_step (t + 1) (.failCall 0) _ h1
    · show (chatStep (t + 1) (ChatEvent.failCall 0) _).pending = []
      rw [hres, pending_fail]
    · show (chatStep (t + 1) (ChatEvent.failCall 0) _).activeMode = s.activeMode
      rw [hres, activeMode_fail]
      exact g2
    · show (msgsOf (chatStep (t + 1) (ChatEvent.failCall 0) _) s.activeMode).length = _
      rw [hres]
      have hml : msgsOf (handleSendMessageFail (t + 1)
            { mode := s.activeMode, query := q, sessionId := tokenOf s s.activeMode }
            { chatStep t ChatEvent.send (chatStep t (ChatEvent.setInput q) s) with pending := [] })
            s.activeMode
          = (msgsOf ({ chatStep t ChatEvent.send (chatStep t (ChatEvent.setInput q) s) with
                pending := [] } : ChatState) s.activeMode).filter (fun x => x.id ≠ "typing") ++
            [{ id := Nat.repr (t + 1 + 1), type := .assistant, content := chatErrorText,
               timestamp := t + 1, sources := [], isTyping := false }] :=
        msgsOf_fail_same (t + 1) _ _
      rw [hml, show msgsOf ({ chatStep t ChatEvent.send (chatStep t (ChatEvent.setInput q) s) with
              pending := [] } : ChatState) s.activeMode
            = msgsOf (chatStep t ChatEvent.send (chatStep t (ChatEvent.setInput q) s)) s.activeMode
          from msgsOf_congr rfl rfl _]
      have hfl := length_filter_ne_typing
        (msgsOf (chatStep t ChatEvent.send (chatStep t (ChatEvent.setInput q) s)) s.activeMode)
      rw [List.length_append, List.length_singleton]
      omega

theorem runCycles_facts (cys : List (String × Nat × Option ApiResult)) :
    ∀ s : ChatState, ChatInv s → s.pending = [] →
      (∀ cy ∈ cys, trimString cy.1 ≠ "") →
      ChatInv (runCycles s cys) ∧ (runCycles s cys).pending = [] ∧
      (runCycles s cys).activeMode = s.activeMode ∧
      (msgsOf (runCycles s cys) s.activeMode).length
        = (msgsOf s s.activeMode).length + 2 * cys.length := by
  induction cys with
  | nil =>
    intro s h hp _
    exact ⟨h, hp, rfl, by simp [runCycles]⟩
  | cons cy cys ih =>
    intro s h hp hq
    obtain ⟨q, t, o⟩ := cy
    obtain ⟨k1, k2, k3, k4⟩ := runCycle_facts s q t o h hp (hq _ (List.mem_cons_self _ _))
    obtain ⟨m1, m2, m3, m4⟩ := ih (runCycle s (q, t, o)) k1 k2
      (fun cy hcy => hq cy (List.mem_cons_of_mem _ hcy))
    refine ⟨m1, m2, m3.trans k3, ?_⟩
    show (msgsOf (runCycles (runCycle s (q, t, o)) cys) s.activeMode).length = _
    rw [← k3]
    rw [← k3] at k4
    rw [m4, k4]
    simp only [List.length_cons]
    omega

/-! ### Chat claims -/

set_option maxRecDepth 1000000

theorem shouldUpdateSession_iff (cap ret : Option String) :
    shouldUpdateSession cap ret = true ↔
      ∃ sid, ret = some sid ∧ sid ≠ "" ∧ some sid ≠ cap := by
  cases ret with
  | none => simp [shouldUpdateSession]
  | some sid =>
    by_cases h1 : sid = "" <;> by_cases h2 : some sid = cap <;>
      simp [shouldUpdateSession, h1, h2]
    all_goals
      intro x hx _
      exact hx.symm

/-- C2, as stated, is false on the code: `handleSendMessage` guards on the
single global `isLoading` flag, so an outstanding call in the OTHER mode does
block sending. Counterexample: drive the component to a reachable state with
an outstanding internal-mode call, switch to customer mode and type a
non-blank query; the send is silently skipped (the state is unchanged) even
though the trimmed text is nonempty and no customer-mode call is
outstanding. -/
theorem C2_counterexample :
    chatStep 6 .send (runChat (initChatState 0)
      [(1, .switchMode .internal), (2, .setInput "Show me student enrollment statistics"),
       (3, .send), (4, .switchMode .customer),
       (5, .setInput "What online degree programs do you offer?")])
      = runChat (initChatState 0)
      [(1, .switchMode .internal), (2, .setInput "Show me student enrollment statistics"),
       (3, .send), (4, .switchMode .customer),
       (5, .setInput "What online degree programs do you offer?")] ∧
    trimString (runChat (initChatState 0)
      [(1, .switchMode .internal), (2, .setInput "Show me student enrollment statistics"),
       (3, .send), (4, .switchMode .customer),
       (5, .setInput "What online degree programs do you offer?")]).inputValue ≠ "" ∧
    (∀ c ∈ (runChat (initChatState 0)
      [(1, .switchMode .internal), (2, .setInput "Show me student enrollment statistics"),
       (3, .send), (4, .switchMode .customer),
       (5, .setInput "What online degree programs do you offer?")]).pending,
        c.mode ≠ (runChat (initChatState 0)
      [(1, .switchMode .internal), (2, .setInput "Show me student enrollment statistics"),
       (3, .send), (4, .switchMode .customer),
       (5, .setInput "What online degree programs do you offer?")]).activeMode) ∧
    (runChat (initChatState 0)
      [(1, .switchMode .internal), (2, .setInput "Show me student enrollment statistics"),
       (3, .send), (4, .switchMode .customer),
       (5, .setInput "What online degree programs do you offer?")]).pending ≠ [] := by
  decide

/-- C2 (amended): `handleSendMessage` is silently skipped exactly when the
text is empty after trimming or ANY call — in either mode, via the single
global `isLoading` flag — is outstanding; consequently at most one call is
ever outstanding in reachable states, so the two modes can never have
outstanding calls simultaneously. -/
theorem C2_send_skipped_iff_global_lock (now : Nat) (s : ChatState) (h : ChatInv s) :
    (chatStep now .send s = s ↔ (trimString s.inputValue = "" ∨ s.pending ≠ [])) ∧
    (∀ (t0 : Nat) (tr : List (Nat × ChatEvent)),
        (runChat (initChatState t0) tr).pending.length ≤ 1) := by
  constructor
  · constructor
    · intro heq
      by_contra hng
      push_neg at hng
      obtain ⟨ht, hp⟩ := hng
      have hnl : s.isLoading = false :=
        isLoading_false_of_no_pending s h hp
      have hguard : ¬ (trimString s.inputValue = "" ∨ s.isLoading) := by
        intro hgg
        rcases hgg with hgg | hgg
        · exact ht hgg
        · rw [hnl] at hgg
          simp at hgg
      have hpend := (send_go_projections now s hguard).1
      rw [show chatStep now ChatEvent.send s = handleSendMessageStart now s from rfl] at heq
      rw [heq] at hpend
      have := congrArg List.length hpend
      simp at this
    · intro hg
      have hguard : trimString s.inputValue = "" ∨ s.isLoading = true := by
        rcases hg with hg | hg
        · exact Or.inl hg
        · exact Or.inr (h.2.1.mpr hg)
      show handleSendMessageStart now s = s
      unfold handleSendMessageStart
      rw [if_pos hguard]
  · intro t0 tr
    exact (chatInv_runChat tr _ (chatInv_initChatState t0)).1

/-- Witness for C2 (amended) at the initial state: with no pending call and
an empty input, the skip-characterization and the global-exclusivity bound
hold by instantiation. -/
theorem C2_witness :
    (chatStep 5 .send (initChatState 0) = initChatState 0 ↔
      (trimString (initChatState 0).inputValue = "" ∨ (initChatState 0).pending ≠ [])) ∧
    (∀ (t0 : Nat) (tr : List (Nat × ChatEvent)),
        (runChat (initChatState t0) tr).pending.length ≤ 1) :=
  C2_send_skipped_iff_global_lock 5 (initChatState 0) (chatInv_initChatState 0)

/-- C3, as stated, is false on the code: clearing the conversation while a
call is outstanding and letting the call resolve appends the finalized
assistant reply into the cleared timeline, producing an orphaned assistant
entry (a finalized reply with no user message before it). Before the resolve
the cleared timeline held exactly one (system) message. -/
theorem C3_counterexample :
    hasOrphanedAssistant (runChat (initChatState 0)
      [(1, .setInput "hi"), (2, .send), (3, .clearChat),
       (4, .resolve 0 ⟨"Here is the answer.", some "abc"⟩)]).customerMessages = true ∧
    (runChat (initChatState 0)
      [(1, .setInput "hi"), (2, .send), (3, .clearChat)]).customerMessages.length = 1 ∧
    hasOrphanedAssistant (initChatState 0).customerMessages = false := by
  decide

/-- C3 (amended): whatever state the component is in when the call
completes — the user may have switched the visible mode (the typing
placeholder can still be present) or cleared the conversation in the
interim — both continuations write only through the setters captured from
the call's originating mode: on success AND on failure the originating
timeline becomes its old content with the placeholder (if any) filtered
out plus exactly one finalized assistant message, the other mode's
timeline (and, for resolve, token; for fail, both tokens) is untouched,
and neither continuation reads or writes the visible `activeMode`. When
the originating timeline was cleared in the interim (it then holds no
placeholder), resolving removes nothing, appends exactly one finalized
assistant message and leaves no placeholder — but that appended entry is
an orphaned reply (see the counterexample). -/
theorem C3_response_routed_to_originating_mode (now : Nat) (c : PendingCall) (r : ApiResult)
    (s : ChatState) :
    msgsOf (handleSendMessageResolve now c r s) c.mode
      = (msgsOf s c.mode).filter (fun x => x.id ≠ "typing") ++
        [{ id := Nat.repr (now + 1), type := .assistant, content := r.answer,
           timestamp := now, sources := [], isTyping := false }] ∧
    msgsOf (handleSendMessageResolve now c r s) c.mode.other = msgsOf s c.mode.other ∧
    tokenOf (handleSendMessageResolve now c r s) c.mode.other = tokenOf s c.mode.other ∧
    (handleSendMessageResolve now c r s).activeMode = s.activeMode ∧
    msgsOf (handleSendMessageFail now c s) c.mode
      = (msgsOf s c.mode).filter (fun x => x.id ≠ "typing") ++
        [{ id := Nat.repr (now + 1), type := .assistant, content := chatErrorText,
           timestamp := now, sources := [], isTyping := false }] ∧
    msgsOf (handleSendMessageFail now c s) c.mode.other = msgsOf s c.mode.other ∧
    (∀ m : ChatMode, tokenOf (handleSendMessageFail now c s) m = tokenOf s m) ∧
    (handleSendMessageFail now c s).activeMode = s.activeMode ∧
    (idTypingCount (msgsOf s c.mode) = 0 →
      msgsOf (handleSendMessageResolve now c r s) c.mode
        = msgsOf s c.mode ++
          [{ id := Nat.repr (now + 1), type := .assistant, content := r.answer,
             timestamp := now, sources := [], isTyping := false }] ∧
      idTypingCount (msgsOf (handleSendMessageResolve now c r s) c.mode) = 0) := by
  refine ⟨msgsOf_resolve_same now c r s, msgsOf_resolve_other now c r s,
    tokenOf_resolve_other now c r s, activeMode_resolve now c r s,
    msgsOf_fail_same now c s, msgsOf_fail_other now c s,
    tokenOf_fail now c s, activeMode_fail now c s, ?_⟩
  intro hcleared
  have hfid : (msgsOf s c.mode).filter (fun x => x.id ≠ "typing") = msgsOf s c.mode := by
    apply List.filter_eq_self.mpr
    intro a ha
    have := List.countP_eq_zero.mp hcleared a ha
    simpa using this
  constructor
  · rw [msgsOf_resolve_same, hfid]
  · rw [msgsOf_resolve_same]
    exact idTypingCount_replaced _ _ (natRepr_ne_typing (now + 1))

/-- Witness for C3 (amended): a customer-mode call sent, then the
conversation cleared while it is outstanding; the resolve appends exactly
one finalized assistant reply to the cleared timeline. -/
theorem C3_witness :
    msgsOf (handleSendMessageResolve 4
        { mode := ChatMode.customer, query := "hi", sessionId := none }
        ⟨"Here is the answer.", some "abc"⟩
        (clearChat 3 (handleSendMessageStart 2
          { initChatState 0 with inputValue := "hi" }))) ChatMode.customer
      = msgsOf (clearChat 3 (handleSendMessageStart 2
          { initChatState 0 with inputValue := "hi" })) ChatMode.customer ++
        [{ id := Nat.repr (4 + 1), type := MsgType.assistant,
           content := "Here is the answer.", timestamp := 4, sources := [],
           isTyping := false }] :=
  ((C3_response_routed_to_originating_mode 4
      { mode := ChatMode.customer, query := "hi", sessionId := none }
      ⟨"Here is the answer.", some "abc"⟩
      (clearChat 3 (handleSendMessageStart 2
        { initChatState 0 with inputValue := "hi" }))).2.2.2.2.2.2.2.2
    (by decide)).1

/-- C4: for every sequence of send cycles in the active mode whose queries
are non-blank and which each resolve (successfully or with failure), the
timeline length equals the initial length plus 2 per cycle; and in every
reachable state each timeline holds at most one message with the pending
(`isTyping`) flag — the placeholder is replaced, never duplicated, when the
call completes. -/
theorem C4_timeline_length_and_placeholder_bound :
    (∀ (s : ChatState) (cys : List (String × Nat × Option ApiResult)),
        ChatInv s → s.pending = [] → (∀ cy ∈ cys, trimString cy.1 ≠ "") →
        (msgsOf (runCycles s cys) s.activeMode).length
          = (msgsOf s s.activeMode).length + 2 * cys.length) ∧
    (∀ (t0 : Nat) (tr : List (Nat × ChatEvent)),
        typingFlagCount (runChat (initChatState t0) tr).customerMessages ≤ 1 ∧
        typingFlagCount (runChat (initChatState t0) tr).internalMessages ≤ 1) := by
  constructor
  · intro s cys h hp hq
    exact (runCycles_facts cys s h hp hq).2.2.2
  · intro t0 tr
    have h := chatInv_runChat tr _ (chatInv_initChatState t0)
    constructor
    · exact Nat.le_trans
        (typingFlagCount_le_idTypingCount _ h.2.2.2.2.1)
        (idTypingCount_le_one_of_inv _ h ChatMode.customer)
    · exact Nat.le_trans
        (typingFlagCount_le_idTypingCount _ h.2.2.2.2.2)
        (idTypingCount_le_one_of_inv _ h ChatMode.internal)

/-- Witness for C4: one successful cycle from the initial state grows the
customer timeline from 1 to 3 messages. -/
theorem C4_witness :
    (msgsOf (runCycles (initChatState 0) [("hello", 2, some ⟨"hi there", none⟩)])
        (initChatState 0).activeMode).length
      = (msgsOf (initChatState 0) (initChatState 0).activeMode).length + 2 * 1 ∧
    typingFlagCount (runChat (initChatState 0) []).customerMessages ≤ 1 :=
  ⟨(C4_timeline_length_and_placeholder_bound).1 (initChatState 0)
      [("hello", 2, some ⟨"hi there", none⟩)] (chatInv_initChatState 0) rfl (by decide),
    ((C4_timeline_length_and_placeholder_bound).2 0 []).1⟩

/-- C5: on success the placeholder is replaced by a finalized assistant
message carrying the returned answer; the originating mode's continuity token
is overwritten with the returned session id exactly when one is present (a
JS-falsy empty string counts as absent, matching the "opaque token or
absent" contract) and different from the mode's current token; the other
mode's token is untouched. The spec's concrete scenario: a first
customer-mode query with no prior token whose response carries session id
"abc" adds 2 timeline entries, sets the customer token to "abc" and leaves
the internal token unset. -/
theorem C5_success_replaces_placeholder_and_updates_token (now : Nat) (c : PendingCall)
    (r : ApiResult) (s : ChatState) (hc : c.sessionId = tokenOf s c.mode) :
    msgsOf (handleSendMessageResolve now c r s) c.mode
      = (msgsOf s c.mode).filter (fun x => x.id ≠ "typing") ++
        [{ id := Nat.repr (now + 1), type := .assistant, content := r.answer,
           timestamp := now, sources := [], isTyping := false }] ∧
    ((∃ sid, r.session_id = some sid ∧ sid ≠ "" ∧ some sid ≠ tokenOf s c.mode) →
        tokenOf (handleSendMessageResolve now c r s) c.mode = r.session_id) ∧
    (¬ (∃ sid, r.session_id = some sid ∧ sid ≠ "" ∧ some sid ≠ tokenOf s c.mode) →
        tokenOf (handleSendMessageResolve now c r s) c.mode = tokenOf s c.mode) ∧
    tokenOf (handleSendMessageResolve now c r s) c.mode.other = tokenOf s c.mode.other ∧
    ((runChat (initChatState 0)
        [(1, .setInput "What are the admission requirements?"), (2, .send),
         (3, .resolve 0 ⟨"Here are the requirements.", some "abc"⟩)]).customerMessages.length
        = (initChatState 0).customerMessages.length + 2 ∧
      (runChat (initChatState 0)
        [(1, .setInput "What are the admission requirements?"), (2, .send),
         (3, .resolve 0 ⟨"Here are the requirements.", some "abc"⟩)]).customerSessionId
        = some "abc" ∧
      (runChat (initChatState 0)
        [(1, .setInput "What are the admission requirements?"), (2, .send),
         (3, .resolve 0 ⟨"Here are the requirements.", some "abc"⟩)]).internalSessionId
        = none) := by
  refine ⟨msgsOf_resolve_same now c r s, ?_, ?_, tokenOf_resolve_other now c r s, by decide⟩
  · intro hex
    have hb : shouldUpdateSession c.sessionId r.session_id = true :=
      (shouldUpdateSession_iff _ _).mpr (by rwa [hc])
    rw [tokenOf_resolve_same, if_pos hb]
  · intro hnex
    have hb : ¬ shouldUpdateSession c.sessionId r.session_id = true := by
      intro hb
      apply hnex
      have := (shouldUpdateSession_iff _ _).mp hb
      rwa [hc] at this
    rw [tokenOf_resolve_same, if_neg hb]

/-- Witness for C5: a first customer-mode call (captured token `none`)
resolving with session id "abc" sets the customer token to "abc". -/
theorem C5_witness :
    tokenOf (handleSendMessageResolve 2
        { mode := ChatMode.customer, query := "q", sessionId := none }
        ⟨"Here are the requirements.", some "abc"⟩ (initChatState 0)) ChatMode.customer
      = some "abc" :=
  (C5_success_replaces_placeholder_and_updates_token 2
      { mode := ChatMode.customer, query := "q", sessionId := none }
      ⟨"Here are the requirements.", some "abc"⟩ (initChatState 0) rfl).2.1
    ⟨"abc", rfl, by decide, by decide⟩

/-- C6: when the gateway call fails, the failure continuation replaces the
typing placeholder with a finalized assistant message carrying the fixed
human-readable failure notice, leaves both modes' continuity tokens and the
other mode's timeline untouched, and returns the component to a non-loading
state — the failure is recovered locally inside the catch/finally blocks and
is never fatal (the continuation is total). -/
theorem C6_failure_fixed_notice_tokens_untouched (now : Nat) (c : PendingCall) (s : ChatState) :
    msgsOf (handleSendMessageFail now c s) c.mode
      = (msgsOf s c.mode).filter (fun x => x.id ≠ "typing") ++
        [{ id := Nat.repr (now + 1), type := .assistant, content := chatErrorText,
           timestamp := now, sources := [], isTyping := false }] ∧
    msgsOf (handleSendMessageFail now c s) c.mode.other = msgsOf s c.mode.other ∧
    (∀ m : ChatMode, tokenOf (handleSendMessageFail now c s) m = tokenOf s m) ∧
    (handleSendMessageFail now c s).isLoading = false :=
  ⟨msgsOf_fail_same now c s, msgsOf_fail_other now c s, tokenOf_fail now c s, rfl⟩

/-- C9: `clearChat` replaces the active mode's entire timeline with exactly
one fresh message of role `system` (the greeting appropriate to the mode),
leaves the other mode's timeline unchanged, and modifies neither mode's
continuity token. -/
theorem C9_clear_single_system_message (now : Nat) (s : ChatState) :
    (msgsOf (clearChat now s) s.activeMode).length = 1 ∧
    (∀ m ∈ msgsOf (clearChat now s) s.activeMode, m.type = MsgType.system) ∧
    msgsOf (clearChat now s) s.activeMode.other = msgsOf s s.activeMode.other ∧
    tokenOf (clearChat now s) ChatMode.customer = tokenOf s ChatMode.customer ∧
    tokenOf (clearChat now s) ChatMode.internal = tokenOf s ChatMode.internal := by
  unfold clearChat
  refine ⟨?_, ?_, ?_, ?_, ?_⟩
  · rw [msgsOf_setMsgs_same]
    rfl
  · rw [msgsOf_setMsgs_same]
    intro m hm
    rw [List.mem_singleton] at hm
    subst hm
    rfl
  · rw [msgsOf_setMsgs_other]
  · rw [tokenOf_setMsgs]
  · rw [tokenOf_setMsgs]

/-! ### Document catalog claim -/

/-- C10: a failing catalog fetch — the synchronous prefix `fetchStart`
followed by the catch/finally continuation `fetchFailure` — surfaces the
user-visible error banner, clears the loading flag, and leaves the
previously loaded document list untouched; on first load (the initial state)
the list remains empty. -/
theorem C10_fetch_failure_banner_and_untouched_list (s : DocState) (msg : String) :
    (fetchFailure msg (fetchStart s)).documents = s.documents ∧
    errorBannerShown (fetchFailure msg (fetchStart s)) = true ∧
    (fetchFailure msg (fetchStart s)).loading = false ∧
    (fetchFailure "Failed to fetch documents: Internal Server Error"
      (fetchStart initDocState)).documents = [] :=
  ⟨rfl, rfl, rfl, rfl⟩

/-! ### Upload component: list utilities -/

theorem eq_of_mem_pairwise_key {α κ : Type} (key : α → κ) {l : List α}
    (hnd : l.Pairwise (fun a b => key a ≠ key b)) :
    ∀ {x y}, x ∈ l → y ∈ l → key x = key y → x = y := by
  induction l with
  | nil =>
    intro x y hx _ _
    cases hx
  | cons a l ih =>
    intro x y hx hy hxy
    rcases List.mem_cons.mp hx with hxa | hx2
    · rcases List.mem_cons.mp hy with hya | hy2
      · rw [hxa, hya]
      · subst hxa
        exact absurd hxy ((List.pairwise_cons.mp hnd).1 y hy2)
    · rcases List.mem_cons.mp hy with hya | hy2
      · subst hya
        exact absurd hxy.symm ((List.pairwise_cons.mp hnd).1 x hx2)
      · exact ih (List.pairwise_cons.mp hnd).2 hx2 hy2 hxy

theorem findUploadLocal_mem {ts : List Driver} {i : String} {l : ℚ}
    (h : findUploadLocal ts i = some l) : Driver.uploadTimer i l ∈ ts := by
  obtain ⟨d, hd, hfd⟩ := List.exists_of_findSome?_eq_some h
  cases d with
  | uploadTimer j l0 =>
    dsimp only at hfd
    by_cases hj : j = i
    · subst hj
      rw [if_pos rfl] at hfd
      cases hfd
      exact hd
    · rw [if_neg hj] at hfd
      cases hfd
  | handoff j => cases hfd
  | processTimer j => cases hfd

/-! ### The progress-bounds fragment of the upload invariant -/

theorem boundsInv_step (s : UploadState) (e : UploadEvent)
    (h : BoundsInv s) (hwf : eventWF s e) : BoundsInv (uploadStep e s) := by
  obtain ⟨hf, ht⟩ := h
  cases e with
  | addFiles descs now =>
    constructor
    · intro f hfm
      rcases List.mem_append.mp hfm with hfm | hfm
      · exact hf f hfm
      · rcases List.mem_map.mp hfm with ⟨d, hd, rfl⟩
        constructor <;> norm_num
    · intro t htm
      rcases List.mem_append.mp htm with htm | htm
      · exact ht t htm
      · rcases List.mem_map.mp htm with ⟨d, hd, rfl⟩
        exact ⟨le_refl 0, by norm_num⟩
  | uploadTick i inc =>
    show BoundsInv (uploadIntervalTick i inc s)
    unfold uploadIntervalTick
    cases hfind : findUploadLocal s.timers i with
    | none => exact ⟨hf, ht⟩
    | some l =>
      have hl : (0:ℚ) ≤ l ∧ l < 100 := ht _ (findUploadLocal_mem hfind)
      have hinc : (0:ℚ) ≤ inc := hwf
      simp only [ratAdd_eq]
      split
      · constructor
        · intro f hfm
          rcases List.mem_map.mp hfm with ⟨f0, hf0, rfl⟩
          by_cases hfi : f0.id = i
          · rw [if_pos hfi]
            constructor <;> norm_num
          · rw [if_neg hfi]
            exact hf f0 hf0
        · intro t htm
          rcases List.mem_append.mp htm with htm | htm
          · exact ht t (List.mem_filter.mp htm).1
          · rw [List.mem_singleton] at htm
            subst htm
            trivial
      · next h100 =>
        have hlt : l + inc < 100 := lt_of_not_ge h100
        constructor
        · intro f hfm
          rcases List.mem_map.mp hfm with ⟨f0, hf0, rfl⟩
          by_cases hfi : f0.id = i
          · rw [if_pos hfi]
            exact ⟨add_nonneg hl.1 hinc, le_of_lt hlt⟩
          · rw [if_neg hfi]
            exact hf f0 hf0
        · intro t htm
          rcases List.mem_map.mp htm with ⟨t0, ht0, rfl⟩
          cases t0 with
          | uploadTimer j l0 =>
            dsimp only
            by_cases hj : j = i
            · rw [if_pos hj]
              exact ⟨add_nonneg hl.1 hinc, hlt⟩
            · rw [if_neg hj]
              exact ht _ ht0
          | handoff j => exact ht _ ht0
          | processTimer j => exact ht _ ht0
  | handoffFire i =>
    show BoundsInv (handoffTimeout i s)
    unfold handoffTimeout
    split
    · refine ⟨hf, ?_⟩
      intro t htm
      rcases List.mem_append.mp htm with htm | htm
      · exact ht t (List.mem_filter.mp htm).1
      · rw [List.mem_singleton] at htm
        subst htm
        trivial
    · exact ⟨hf, ht⟩
  | processTick i inc =>
    show BoundsInv (processingIntervalTick i inc s)
    unfold processingIntervalTick
    have hinc : (0:ℚ) ≤ inc := hwf
    split
    · simp only [ratAdd_eq]
      constructor
      · intro f hfm
        rcases List.mem_map.mp hfm with ⟨f0, hf0, rfl⟩
        by_cases hfi : f0.id = i ∧ f0.status = UploadStatus.processing
        · rw [if_pos hfi]
          by_cases h100 : (100:ℚ) ≤ f0.progress + inc
          · rw [if_pos h100]
            constructor <;> norm_num
          · rw [if_neg h100]
            exact ⟨add_nonneg (hf f0 hf0).1 hinc, le_of_lt (lt_of_not_ge h100)⟩
        · rw [if_neg hfi]
          exact hf f0 hf0
      · intro t htm
        split at htm
        · exact ht t (List.mem_filter.mp htm).1
        · exact ht t htm
    · exact ⟨hf, ht⟩
  | removeRecord i =>
    refine ⟨?_, ht⟩
    intro f hfm
    exact hf f (List.mem_filter.mp hfm).1
  | setError i msg =>
    refine ⟨?_, ht⟩
    intro f hfm
    rcases List.mem_map.mp hfm with ⟨f0, hf0, rfl⟩
    by_cases hfi : f0.id = i ∧ (f0.status = UploadStatus.uploading ∨ f0.status = UploadStatus.processing)
    · rw [if_pos hfi]
      exact hf f0 hf0
    · rw [if_neg hfi]
      exact hf f0 hf0

theorem boundsInv_runUpload (tr : List UploadEvent) :
    ∀ s, BoundsInv s → TraceWF s tr → BoundsInv (runUpload s tr) := by
  induction tr with
  | nil => exact fun s h _ => h
  | cons e tr ih =>
    intro s h hwf
    exact ih _ (boundsInv_step s e h hwf.1) hwf.2

theorem boundsInv_init : BoundsInv initUploadState := by
  constructor <;> intro x hx <;> cases hx

/-! ### Preservation of the full upload invariant -/

theorem pairwise_key_map {α κ : Type} (key : α → κ) {l : List α} (g : α → α)
    (hg : ∀ x, key (g x) = key x)
    (h : l.Pairwise (fun a b => key a ≠ key b)) :
    (l.map g).Pairwise (fun a b => key a ≠ key b) := by
  rw [List.pairwise_map]
  refine h.imp ?_
  intro a b hab
  rw [hg, hg]
  exact hab

theorem uploadInv_step (s : UploadState) (e : UploadEvent)
    (h : UploadInv s) (hwf : eventWF s e) : UploadInv (uploadStep e s) := by
  obtain ⟨h1, h2, h3, h4⟩ := h
  cases e with
  | addFiles descs now =>
    obtain ⟨hdist, hdisj⟩ := hwf
    refine ⟨?_, ?_, ?_, ?_⟩
    · refine List.pairwise_append.mpr ⟨h1, ?_, ?_⟩
      · rw [List.pairwise_map]
        refine hdist.imp ?_
        intro a b hab
        simpa [Driver.fileId] using hab
      · intro t htm t' ht'm
        rcases List.mem_map.mp ht'm with ⟨d, hd, rfl⟩
        simpa [Driver.fileId] using ((hdisj d hd).2 t htm)
    · refine List.pairwise_append.mpr ⟨h2, ?_, ?_⟩
      · rw [List.pairwise_map]
        refine hdist.imp ?_
        intro a b hab
        simpa using hab
      · intro f hfm f' hf'm
        rcases List.mem_map.mp hf'm with ⟨d, hd, rfl⟩
        simpa using ((hdisj d hd).1 f hfm)
    · intro f hfm
      rcases List.mem_append.mp hfm with hfm | hfm
      · exact h3 f hfm
      · rcases List.mem_map.mp hfm with ⟨d, hd, rfl⟩
        refine ⟨le_refl 0, by norm_num, ?_, ?_⟩
        · intro hst
          cases hst
        · intro _
          norm_num
    · intro t htm
      rcases List.mem_append.mp htm with htm | htm
      · cases t with
        | uploadTimer j l =>
          obtain ⟨a, b, c⟩ := h4 _ htm
          refine ⟨a, b, ?_⟩
          intro f hfm hfj
          rcases List.mem_append.mp hfm with hfm | hfm
          · exact c f hfm hfj
          · rcases List.mem_map.mp hfm with ⟨d, hd, rfl⟩
            exact absurd hfj.symm (by simpa [Driver.fileId] using ((hdisj d hd).2 _ htm))
        | handoff j => trivial
        | processTimer j => trivial
      · rcases List.mem_map.mp htm with ⟨d, hd, rfl⟩
        refine ⟨le_refl 0, by norm_num, ?_⟩
        intro f hfm hfd
        rcases List.mem_append.mp hfm with hfm | hfm
        · exact absurd hfd ((hdisj d hd).1 f hfm)
        · rcases List.mem_map.mp hfm with ⟨d', hd', rfl⟩
          exact ⟨Or.inl rfl, le_refl 0⟩
  | uploadTick i inc =>
    show UploadInv (uploadIntervalTick i inc s)
    unfold uploadIntervalTick
    cases hfind : findUploadLocal s.timers i with
    | none => exact ⟨h1, h2, h3, h4⟩
    | some l =>
      have hmem : Driver.uploadTimer i l ∈ s.timers := findUploadLocal_mem hfind
      obtain ⟨hl0, hl1, hcpl⟩ := h4 _ hmem
      have hinc : (0:ℚ) ≤ inc := hwf
      simp only [ratAdd_eq]
      split
      · next h100 =>
        refine ⟨?_, ?_, ?_, ?_⟩
        · refine List.pairwise_append.mpr
            ⟨List.Pairwise.sublist (List.filter_sublist _) h1, List.pairwise_singleton _ _, ?_⟩
          intro t htm t' ht'm
          rw [List.mem_singleton] at ht'm
          subst ht'm
          have htm2 := List.mem_filter.mp htm
          intro hcontra
          have hci : t.fileId = i := hcontra
          have ht : t = Driver.uploadTimer i l :=
            eq_of_mem_pairwise_key Driver.fileId h1 htm2.1 hmem (by simpa [Driver.fileId] using hci)
          rw [ht] at htm2
          simpa [isUploadTimerFor] using htm2.2
        · exact pairwise_key_map (fun f : UploadedFile => f.id) _ (by
            intro f
            by_cases hfi : f.id = i <;> simp [hfi]) h2
        · intro f hfm
          rcases List.mem_map.mp hfm with ⟨f0, hf0, rfl⟩
          by_cases hfi : f0.id = i
          · rw [if_pos hfi]
            refine ⟨le_refl 0, by norm_num, ?_, ?_⟩
            · intro hst
              cases hst
            · intro _
              norm_num
          · rw [if_neg hfi]
            exact h3 f0 hf0
        · intro t htm
          rcases List.mem_append.mp htm with htm | htm
          · have htm2 := List.mem_filter.mp htm
            cases t with
            | uploadTimer j l0 =>
              obtain ⟨a, b, c⟩ := h4 _ htm2.1
              refine ⟨a, b, ?_⟩
              intro f hfm hfj
              rcases List.mem_map.mp hfm with ⟨f0, hf0, rfl⟩
              have hj : j ≠ i := by
                intro hji
                subst hji
                have ht : Driver.uploadTimer j l0 = Driver.uploadTimer j l :=
                  eq_of_mem_pairwise_key Driver.fileId h1 htm2.1 hmem rfl
                rw [ht] at htm2
                simpa [isUploadTimerFor] using htm2.2
              have hf0j : f0.id = j := by
                by_cases hfi : f0.id = i
                · rw [if_pos hfi] at hfj
                  exact hfj
                · rw [if_neg hfi] at hfj
                  exact hfj
              have hfi : ¬ f0.id = i := by
                rw [hf0j]
                exact hj
              rw [if_neg hfi]
              exact c f0 hf0 hf0j
            | handoff j => trivial
            | processTimer j => trivial
          · rw [List.mem_singleton] at htm
            subst htm
            trivial
      · next h100 =>
        have hlt : l + inc < 100 := lt_of_not_ge h100
        refine ⟨?_, ?_, ?_, ?_⟩
        · exact pairwise_key_map Driver.fileId _ (by
            intro d
            cases d with
            | uploadTimer j l0 =>
              dsimp only
              by_cases hj : j = i <;> simp [hj, Driver.fileId]
            | handoff j => rfl
            | processTimer j => rfl) h1
        · exact pairwise_key_map (fun f : UploadedFile => f.id) _ (by
            intro f
            by_cases hfi : f.id = i <;> simp [hfi]) h2
        · intro f hfm
          rcases List.mem_map.mp hfm with ⟨f0, hf0, rfl⟩
          by_cases hfi : f0.id = i
          · rw [if_pos hfi]
            have hst := (hcpl f0 hf0 hfi).1
            refine ⟨add_nonneg hl0 hinc, le_of_lt hlt, ?_, fun _ => hlt⟩
            intro hrd
            rcases hst with hst | hst <;> rw [hst] at hrd <;> cases hrd
          · rw [if_neg hfi]
            exact h3 f0 hf0
        · intro t htm
          rcases List.mem_map.mp htm with ⟨t0, ht0, rfl⟩
          cases t0 with
          | uploadTimer j l0 =>
            dsimp only
            by_cases hj : j = i
            · rw [if_pos hj]
              refine ⟨add_nonneg hl0 hinc, hlt, ?_⟩
              intro f hfm hfj
              rcases List.mem_map.mp hfm with ⟨f0, hf0, rfl⟩
              have hf0j : f0.id = j := by
                by_cases hfi : f0.id = i
                · rw [if_pos hfi] at hfj
                  exact hfj
                · rw [if_neg hfi] at hfj
                  exact hfj
              have hfi : f0.id = i := hf0j.trans hj
              rw [if_pos hfi]
              obtain ⟨hst, hpl⟩ := hcpl f0 hf0 hfi
              exact ⟨hst, le_refl _⟩
            · rw [if_neg hj]
              obtain ⟨a, b, c⟩ := h4 _ ht0
              refine ⟨a, b, ?_⟩
              intro f hfm hfj
              rcases List.mem_map.mp hfm with ⟨f0, hf0, rfl⟩
              have hf0j : f0.id = j := by
                by_cases hfi : f0.id = i
                · rw [if_pos hfi] at hfj
                  exact hfj
                · rw [if_neg hfi] at hfj
                  exact hfj
              have hfi : ¬ f0.id = i := by
                rw [hf0j]
                exact hj
              rw [if_neg hfi]
              exact c f0 hf0 hf0j
          | handoff j => trivial
          | processTimer j => trivial
  | handoffFire i =>
    show UploadInv (handoffTimeout i s)
    unfold handoffTimeout
    split
    · next hhmem =>
      refine ⟨?_, h2, h3, ?_⟩
      · refine List.pairwise_append.mpr
          ⟨List.Pairwise.sublist (List.filter_sublist _) h1, List.pairwise_singleton _ _, ?_⟩
        intro t htm t' ht'm
        rw [List.mem_singleton] at ht'm
        subst ht'm
        have htm2 := List.mem_filter.mp htm
        intro hcontra
        have hci : t.fileId = i := hcontra
        have ht : t = Driver.handoff i :=
          eq_of_mem_pairwise_key Driver.fileId h1 htm2.1 hhmem (by simpa [Driver.fileId] using hci)
        rw [ht] at htm2
        simpa using htm2.2
      · intro t htm
        rcases List.mem_append.mp htm with htm | htm
        · have htm2 := List.mem_filter.mp htm
          cases t with
          | uploadTimer j l0 =>
            obtain ⟨a, b, c⟩ := h4 _ htm2.1
            exact ⟨a, b, c⟩
          | handoff j => trivial
          | processTimer j => trivial
        · rw [List.mem_singleton] at htm
          subst htm
          trivial
    · exact ⟨h1, h2, h3, h4⟩
  | processTick i inc =>
    show UploadInv (processingIntervalTick i inc s)
    unfold processingIntervalTick
    split
    · next hpmem =>
      have hinc : (0:ℚ) ≤ inc := hwf
      simp only [ratAdd_eq]
      refine ⟨?_, ?_, ?_, ?_⟩
      · split
        · exact List.Pairwise.sublist (List.filter_sublist _) h1
        · exact h1
      · exact pairwise_key_map (fun f : UploadedFile => f.id) _ (by
          intro f
          by_cases hfi : f.id = i ∧ f.status = UploadStatus.processing
          · rw [if_pos hfi]
            by_cases h100 : (100:ℚ) ≤ f.progress + inc <;> simp [h100]
          · simp [hfi]) h2
      · intro f hfm
        rcases List.mem_map.mp hfm with ⟨f0, hf0, rfl⟩
        by_cases hfi : f0.id = i ∧ f0.status = UploadStatus.processing
        · rw [if_pos hfi]
          by_cases h100 : (100:ℚ) ≤ f0.progress + inc
          · rw [if_pos h100]
            refine ⟨by norm_num, by norm_num, fun _ => rfl, ?_⟩
            intro hnr
            exact absurd rfl hnr
          · rw [if_neg h100]
            refine ⟨add_nonneg (h3 f0 hf0).1 hinc, le_of_lt (lt_of_not_ge h100),
              ?_, fun _ => lt_of_not_ge h100⟩
            intro hrd
            have hpr : f0.status = UploadStatus.ready := hrd
            rw [hfi.2] at hpr
            cases hpr
        · rw [if_neg hfi]
          exact h3 f0 hf0
      · intro t htm
        have htmem : t ∈ s.timers := by
          split at htm
          · exact (List.mem_filter.mp htm).1
          · exact htm
        cases t with
        | uploadTimer j l0 =>
          obtain ⟨a, b, c⟩ := h4 _ htmem
          refine ⟨a, b, ?_⟩
          intro f hfm hfj
          rcases List.mem_map.mp hfm with ⟨f0, hf0, rfl⟩
          have hf0j : f0.id = j := by
            by_cases hfi : f0.id = i ∧ f0.status = UploadStatus.processing
            · rw [if_pos hfi] at hfj
              by_cases h100 : (100:ℚ) ≤ f0.progress + inc
              · rw [if_pos h100] at hfj
                exact hfj
              · rw [if_neg h100] at hfj
                exact hfj
            · rw [if_neg hfi] at hfj
              exact hfj
          obtain ⟨hst, hpl⟩ := c f0 hf0 hf0j
          have hnproc : ¬ (f0.id = i ∧ f0.status = UploadStatus.processing) := by
            rintro ⟨_, hpr⟩
            rcases hst with hst | hst <;> rw [hst] at hpr <;> cases hpr
          rw [if_neg hnproc]
          exact ⟨hst, hpl⟩
        | handoff j => trivial
        | processTimer j => trivial
    · exact ⟨h1, h2, h3, h4⟩
  | removeRecord i =>
    refine ⟨h1, List.Pairwise.sublist (List.filter_sublist _) h2, ?_, ?_⟩
    · intro f hfm
      exact h3 f (List.mem_filter.mp hfm).1
    · intro t htm
      cases t with
      | uploadTimer j l0 =>
        obtain ⟨a, b, c⟩ := h4 _ htm
        refine ⟨a, b, ?_⟩
        intro f hfm hfj
        exact c f (List.mem_filter.mp hfm).1 hfj
      | handoff j => trivial
      | processTimer j => trivial
  | setError i msg =>
    refine ⟨h1, ?_, ?_, ?_⟩
    · exact pairwise_key_map (fun f : UploadedFile => f.id) _ (by
        intro f
        by_cases hfi : f.id = i ∧ (f.status = UploadStatus.uploading ∨ f.status = UploadStatus.processing)
        · rw [if_pos hfi]
        · rw [if_neg hfi]) h2
    · intro f hfm
      rcases List.mem_map.mp hfm with ⟨f0, hf0, rfl⟩
      by_cases hfi : f0.id = i ∧ (f0.status = UploadStatus.uploading ∨ f0.status = UploadStatus.processing)
      · rw [if_pos hfi]
        obtain ⟨b0, b1, b2, b3⟩ := h3 f0 hf0
        refine ⟨b0, b1, ?_, ?_⟩
        · intro hrd
          cases hrd
        · intro _
          apply b3
          intro hrd
          rcases hfi.2 with hst | hst <;> rw [hst] at hrd <;> cases hrd
      · rw [if_neg hfi]
        exact h3 f0 hf0
    · intro t htm
      cases t with
      | uploadTimer j l0 =>
        obtain ⟨a, b, c⟩ := h4 _ htm
        refine ⟨a, b, ?_⟩
        intro f hfm hfj
        rcases List.mem_map.mp hfm with ⟨f0, hf0, rfl⟩
        have hf0j : f0.id = j := by
          by_cases hfi : f0.id = i ∧ (f0.status = UploadStatus.uploading ∨ f0.status = UploadStatus.processing)
          · rw [if_pos hfi] at hfj
            exact hfj
          · rw [if_neg hfi] at hfj
            exact hfj
        obtain ⟨hst, hpl⟩ := c f0 hf0 hf0j
        by_cases hfi : f0.id = i ∧ (f0.status = UploadStatus.uploading ∨ f0.status = UploadStatus.processing)
        · rw [if_pos hfi]
          exact ⟨Or.inr rfl, hpl⟩
        · rw [if_neg hfi]
          exact ⟨hst, hpl⟩
      | handoff j => trivial
      | processTimer j => trivial

theorem uploadInv_runUpload (tr : List UploadEvent) :
    ∀ s, UploadInv s → TraceWF s tr → UploadInv (runUpload s tr) := by
  induction tr with
  | nil => exact fun s h _ => h
  | cons e tr ih =>
    intro s h hwf
    exact ih _ (uploadInv_step s e h hwf.1) hwf.2

theorem uploadInv_init : UploadInv initUploadState := by
  refine ⟨List.Pairwise.nil, List.Pairwise.nil, ?_, ?_⟩ <;> intro x hx <;> cases hx

theorem noErrRecords_step (s : UploadState) (e : UploadEvent)
    (h : NoErrRecords s) (hne : isSetErrorEvent e = false) : NoErrRecords (uploadStep e s) := by
  cases e with
  | addFiles descs now =>
    intro f hfm
    rcases List.mem_append.mp hfm with hfm | hfm
    · exact h f hfm
    · rcases List.mem_map.mp hfm with ⟨d, hd, rfl⟩
      intro hc
      cases hc
  | uploadTick i inc =>
    show NoErrRecords (uploadIntervalTick i inc s)
    unfold uploadIntervalTick
    cases hfind : findUploadLocal s.timers i with
    | none => exact h
    | some l =>
      simp only [ratAdd_eq]
      split
      · intro f hfm
        rcases List.mem_map.mp hfm with ⟨f0, hf0, rfl⟩
        by_cases hfi : f0.id = i
        · rw [if_pos hfi]
          intro hc
          cases hc
        · rw [if_neg hfi]
          exact h f0 hf0
      · intro f hfm
        rcases List.mem_map.mp hfm with ⟨f0, hf0, rfl⟩
        by_cases hfi : f0.id = i
        · rw [if_pos hfi]
          exact h f0 hf0
        · rw [if_neg hfi]
          exact h f0 hf0
  | handoffFire i =>
    show NoErrRecords (handoffTimeout i s)
    unfold handoffTimeout
    split
    · exact h
    · exact h
  | processTick i inc =>
    show NoErrRecords (processingIntervalTick i inc s)
    unfold processingIntervalTick
    split
    · simp only [ratAdd_eq]
      intro f hfm
      rcases List.mem_map.mp hfm with ⟨f0, hf0, rfl⟩
      by_cases hfi : f0.id = i ∧ f0.status = UploadStatus.processing
      · rw [if_pos hfi]
        by_cases h100 : (100:ℚ) ≤ f0.progress + inc
        · rw [if_pos h100]
          intro hc
          cases hc
        · rw [if_neg h100]
          exact h f0 hf0
      · rw [if_neg hfi]
        exact h f0 hf0
    · exact h
  | removeRecord i =>
    intro f hfm
    exact h f (List.mem_filter.mp hfm).1
  | setError i msg => cases hne

theorem noErrRecords_runUpload (tr : List UploadEvent) :
    ∀ s, NoErrRecords s → noSetError tr → NoErrRecords (runUpload s tr) := by
  induction tr with
  | nil => exact fun s h _ => h
  | cons e tr ih =>
    intro s h hns
    exact ih _ (noErrRecords_step s e h (hns e (List.mem_cons_self _ _)))
      (fun e2 he2 => hns e2 (List.mem_cons_of_mem _ he2))

/-- The reflexive case of the record-evolution triple: nothing changed. -/
theorem record_triple_refl (f : UploadedFile) :
    (f.status = f.status → f.progress ≤ f.progress) ∧
    (f.progress < f.progress →
        f.status = UploadStatus.uploading ∧ f.status = UploadStatus.processing ∧ f.progress = 0) ∧
    (f.status = UploadStatus.uploading → f.status = UploadStatus.uploading) :=
  ⟨fun _ => le_refl _, fun hlt => absurd hlt (lt_irrefl _), fun hu => hu⟩

theorem uploadStep_record_evolution (s : UploadState) (e : UploadEvent)
    (hinv : UploadInv s) (hnoerr : NoErrRecords s) (hwf : eventWF s e)
    (hne : isSetErrorEvent e = false)
    (f f' : UploadedFile) (hf : f ∈ s.files) (hf' : f' ∈ (uploadStep e s).files)
    (hid : f'.id = f.id) :
    (f'.status = f.status → f.progress ≤ f'.progress) ∧
    (f'.progress < f.progress →
        f.status = UploadStatus.uploading ∧ f'.status = UploadStatus.processing ∧ f'.progress = 0) ∧
    (f'.status = UploadStatus.uploading → f.status = UploadStatus.uploading) := by
  obtain ⟨h1, h2, h3, h4⟩ := hinv
  cases e with
  | addFiles descs now =>
    obtain ⟨hdist, hdisj⟩ := hwf
    rcases List.mem_append.mp hf' with hf'm | hf'm
    · have hee : f' = f :=
        eq_of_mem_pairwise_key (fun x : UploadedFile => x.id) h2 hf'm hf hid
      rw [hee]
      exact record_triple_refl f
    · rcases List.mem_map.mp hf'm with ⟨d, hd, rfl⟩
      have hdf : d.id = f.id := hid
      exact absurd hdf.symm ((hdisj d hd).1 f hf)
  | uploadTick i inc =>
    have hf'2 : f' ∈ (uploadIntervalTick i inc s).files := hf'
    unfold uploadIntervalTick at hf'2
    cases hfind : findUploadLocal s.timers i with
    | none =>
      rw [hfind] at hf'2
      have hee : f' = f :=
        eq_of_mem_pairwise_key (fun x : UploadedFile => x.id) h2 hf'2 hf hid
      rw [hee]
      exact record_triple_refl f
    | some l =>
      rw [hfind] at hf'2
      obtain ⟨hl0, hl1, hcpl⟩ := h4 _ (findUploadLocal_mem hfind)
      have hinc : (0:ℚ) ≤ inc := hwf
      simp only [ratAdd_eq] at hf'2
      split at hf'2
      · rcases List.mem_map.mp hf'2 with ⟨f0, hf0, rfl⟩
        have hgid : f0.id = f.id := by
          rw [← hid]
          by_cases hfi : f0.id = i
          · rw [if_pos hfi]
          · rw [if_neg hfi]
        obtain rfl : f0 = f :=
          eq_of_mem_pairwise_key (fun x : UploadedFile => x.id) h2 hf0 hf hgid
        by_cases hfi : f0.id = i
        · rw [if_pos hfi]
          have hupl : f0.status = UploadStatus.uploading := by
            rcases (hcpl f0 hf hfi).1 with hst | hst
            · exact hst
            · exact absurd hst (hnoerr f0 hf)
          refine ⟨?_, ?_, ?_⟩
          · intro hst
            rw [hupl] at hst
            cases hst
          · intro _
            exact ⟨hupl, rfl, rfl⟩
          · intro hu
            cases hu
        · rw [if_neg hfi]
          exact record_triple_refl f0
      · next h100 =>
        rcases List.mem_map.mp hf'2 with ⟨f0, hf0, rfl⟩
        have hgid : f0.id = f.id := by
          rw [← hid]
          by_cases hfi : f0.id = i
          · rw [if_pos hfi]
          · rw [if_neg hfi]
        obtain rfl : f0 = f :=
          eq_of_mem_pairwise_key (fun x : UploadedFile => x.id) h2 hf0 hf hgid
        by_cases hfi : f0.id = i
        · rw [if_pos hfi]
          have hple := (hcpl f0 hf hfi).2
          refine ⟨?_, ?_, ?_⟩
          · intro _
            exact le_trans hple (le_add_of_nonneg_right hinc)
          · intro hlt
            exact absurd hlt (not_lt.mpr (le_trans hple (le_add_of_nonneg_right hinc)))
          · intro hu
            exact hu
        · rw [if_neg hfi]
          exact record_triple_refl f0
  | handoffFire i =>
    have hf'2 : f' ∈ (handoffTimeout i s).files := hf'
    unfold handoffTimeout at hf'2
    split at hf'2
    · have hee : f' = f :=
        eq_of_mem_pairwise_key (fun x : UploadedFile => x.id) h2 hf'2 hf hid
      rw [hee]
      exact record_triple_refl f
    · have hee : f' = f :=
        eq_of_mem_pairwise_key (fun x : UploadedFile => x.id) h2 hf'2 hf hid
      rw [hee]
      exact record_triple_refl f
  | processTick i inc =>
    have hf'2 : f' ∈ (processingIntervalTick i inc s).files := hf'
    unfold processingIntervalTick at hf'2
    split at hf'2
    · simp only [ratAdd_eq] at hf'2
      have hinc : (0:ℚ) ≤ inc := hwf
      rcases List.mem_map.mp hf'2 with ⟨f0, hf0, rfl⟩
      have hgid : f0.id = f.id := by
        rw [← hid]
        by_cases hfi : f0.id = i ∧ f0.status = UploadStatus.processing
        · rw [if_pos hfi]
          by_cases h100 : (100:ℚ) ≤ f0.progress + inc
          · rw [if_pos h100]
          · rw [if_neg h100]
        · rw [if_neg hfi]
      obtain rfl : f0 = f :=
        eq_of_mem_pairwise_key (fun x : UploadedFile => x.id) h2 hf0 hf hgid
      by_cases hfi : f0.id = i ∧ f0.status = UploadStatus.processing
      · rw [if_pos hfi]
        by_cases h100 : (100:ℚ) ≤ f0.progress + inc
        · rw [if_pos h100]
          refine ⟨?_, ?_, ?_⟩
          · intro hst
            rw [hfi.2] at hst
            cases hst
          · intro hlt
            exact absurd hlt (not_lt.mpr (h3 f0 hf).2.1)
          · intro hu
            cases hu
        · rw [if_neg h100]
          refine ⟨?_, ?_, ?_⟩
          · intro _
            exact le_add_of_nonneg_right hinc
          · intro hlt
            exact absurd hlt (not_lt.mpr (le_add_of_nonneg_right hinc))
          · intro hu
            exact hu
      · rw [if_neg hfi]
        exact record_triple_refl f0
    · have hee : f' = f :=
        eq_of_mem_pairwise_key (fun x : UploadedFile => x.id) h2 hf'2 hf hid
      rw [hee]
      exact record_triple_refl f
  | removeRecord i =>
    have hee : f' = f :=
      eq_of_mem_pairwise_key (fun x : UploadedFile => x.id) h2 (List.mem_filter.mp hf').1 hf hid
    rw [hee]
    exact record_triple_refl f
  | setError i msg => cases hne

/-! ### Upload component claims -/

/-- C1: code bug. `removeFile` only filters the files list (lines 99-101);
it holds no handle to the timers of `simulateFileProcessing` and clears
none of them. On the concrete well-formed trace below, removing the record
leaves its upload interval registered; the next tick mutates the registry
(the closure-local counter advances from 0 to 5), a later tick drives the
interval over 100 and registers the hand-off, and the hand-off installs a
processing interval that persists under further ticks — the map callback
holding its `clearInterval` never runs once the record is gone, so the
driver is never halted, contradicting the claimed synchronous cancellation
contract. -/
theorem C1_removeRecord_leaves_driver_running :
    TraceWF initUploadState
      [UploadEvent.addFiles [FileDesc.mk "a" "f.txt" 100] 0,
       UploadEvent.removeRecord "a",
       UploadEvent.uploadTick "a" 5,
       UploadEvent.uploadTick "a" 100,
       UploadEvent.handoffFire "a",
       UploadEvent.processTick "a" 50,
       UploadEvent.processTick "a" 50] ∧
    (runUpload initUploadState
      [UploadEvent.addFiles [FileDesc.mk "a" "f.txt" 100] 0,
       UploadEvent.removeRecord "a"]).files = [] ∧
    (runUpload initUploadState
      [UploadEvent.addFiles [FileDesc.mk "a" "f.txt" 100] 0,
       UploadEvent.removeRecord "a"]).timers = [Driver.uploadTimer "a" 0] ∧
    (runUpload initUploadState
      [UploadEvent.addFiles [FileDesc.mk "a" "f.txt" 100] 0,
       UploadEvent.removeRecord "a",
       UploadEvent.uploadTick "a" 5]).timers = [Driver.uploadTimer "a" 5] ∧
    (runUpload initUploadState
      [UploadEvent.addFiles [FileDesc.mk "a" "f.txt" 100] 0,
       UploadEvent.removeRecord "a",
       UploadEvent.uploadTick "a" 5,
       UploadEvent.uploadTick "a" 100,
       UploadEvent.handoffFire "a",
       UploadEvent.processTick "a" 50]).timers = [Driver.processTimer "a"] ∧
    (runUpload initUploadState
      [UploadEvent.addFiles [FileDesc.mk "a" "f.txt" 100] 0,
       UploadEvent.removeRecord "a",
       UploadEvent.uploadTick "a" 5,
       UploadEvent.uploadTick "a" 100,
       UploadEvent.handoffFire "a",
       UploadEvent.processTick "a" 50,
       UploadEvent.processTick "a" 50]).timers = [Driver.processTimer "a"] := by
  decide

/-- C7: progress discipline of the simulator, stated in two parts over
traces avoiding the spec-modelled external error supplier. (1) Along every
well-formed trace from the initial state, every record's stored progress
lies in [0,100]. (2) Across any single event from an invariant-satisfying,
error-free state, a record with a given id evolves so that: if its status
is unchanged its progress does not decrease; any strict decrease of
progress is exactly the `uploading` → `processing` transition and lands on
0 (so the reset happens only there, and — since by (2) a record never
re-enters `uploading` — at most once); together with (1) no record exceeds
100 in any phase. -/
theorem C7_progress_monotone_reset_once_bounded :
    (∀ tr : List UploadEvent, TraceWF initUploadState tr →
      ∀ f ∈ (runUpload initUploadState tr).files,
        0 ≤ f.progress ∧ f.progress ≤ 100) ∧
    (∀ (s : UploadState) (e : UploadEvent),
      UploadInv s → NoErrRecords s → eventWF s e → isSetErrorEvent e = false →
      ∀ f ∈ s.files, ∀ f' ∈ (uploadStep e s).files, f'.id = f.id →
        (f'.status = f.status → f.progress ≤ f'.progress) ∧
        (f'.progress < f.progress →
          f.status = UploadStatus.uploading ∧ f'.status = UploadStatus.processing ∧
          f'.progress = 0) ∧
        (f'.status = UploadStatus.uploading → f.status = UploadStatus.uploading)) := by
  constructor
  · intro tr htr f hf
    exact (boundsInv_runUpload tr initUploadState boundsInv_init htr).1 f hf
  · intro s e hinv hnoerr hwf hne f hf f' hf' hid
    exact uploadStep_record_evolution s e hinv hnoerr hwf hne f f' hf hf' hid

theorem C7_witness :
    0 ≤ (UploadedFile.mk "a" "f.txt" 100 UploadStatus.uploading 50 0 none).progress ∧
    (UploadedFile.mk "a" "f.txt" 100 UploadStatus.uploading 50 0 none).progress ≤ 100 :=
  C7_progress_monotone_reset_once_bounded.1
    [UploadEvent.addFiles [FileDesc.mk "a" "f.txt" 100] 0, UploadEvent.uploadTick "a" 50]
    (by decide)
    (UploadedFile.mk "a" "f.txt" 100 UploadStatus.uploading 50 0 none)
    (by decide)

/-- C8: counterexample. On the concrete well-formed trace below, a record
externally marked `error` while its upload interval is still running is
mutated by the next interval tick: the tick's map callback (lines 63-65)
checks only the id, never the status, so the `error` record's progress is
driven from 10 to 20 — `error` is not terminal while a phase driver for
the record survives. -/
theorem C8_counterexample :
    TraceWF initUploadState
      [UploadEvent.addFiles [FileDesc.mk "a" "f.txt" 100] 0,
       UploadEvent.uploadTick "a" 10,
       UploadEvent.setError "a" "boom",
       UploadEvent.uploadTick "a" 10] ∧
    (runUpload initUploadState
      [UploadEvent.addFiles [FileDesc.mk "a" "f.txt" 100] 0,
       UploadEvent.uploadTick "a" 10,
       UploadEvent.setError "a" "boom"]).files
      = [UploadedFile.mk "a" "f.txt" 100 UploadStatus.error 10 0 (some "boom")] ∧
    (runUpload initUploadState
      [UploadEvent.addFiles [FileDesc.mk "a" "f.txt" 100] 0,
       UploadEvent.uploadTick "a" 10,
       UploadEvent.setError "a" "boom",
       UploadEvent.uploadTick "a" 10]).files
      = [UploadedFile.mk "a" "f.txt" 100 UploadStatus.error 20 0 (some "boom")] := by
  decide

/-- C8 (amended): from an invariant-satisfying state, a record whose status
is `ready` or `error` is left exactly as it is — every record carrying its
id after the event is the record itself, all fields included — by every
event EXCEPT an upload-interval tick for that very id: the processing
interval's callback checks the status (line 50) and the spec-modelled
external supplier only marks transfer-phase records, but the upload
interval's callbacks (lines 40-44 and 63-65) check only the id, so a
still-running upload interval may mutate even an `error` record (see the
counterexample). -/
theorem C8_ready_error_terminal_except_upload_tick (s : UploadState) (e : UploadEvent)
    (hinv : UploadInv s) (hwf : eventWF s e)
    (f : UploadedFile) (hf : f ∈ s.files)
    (hst : f.status = UploadStatus.ready ∨ f.status = UploadStatus.error)
    (hnt : ∀ inc : ℚ, e ≠ UploadEvent.uploadTick f.id inc) :
    ∀ f' ∈ (uploadStep e s).files, f'.id = f.id → f' = f := by
  obtain ⟨h1, h2, h3, h4⟩ := hinv
  intro f' hf' hid
  cases e with
  | addFiles descs now =>
    obtain ⟨hdist, hdisj⟩ := hwf
    rcases List.mem_append.mp hf' with hf'm | hf'm
    · exact eq_of_mem_pairwise_key (fun x : UploadedFile => x.id) h2 hf'm hf hid
    · rcases List.mem_map.mp hf'm with ⟨d, hd, rfl⟩
      have hdf : d.id = f.id := hid
      exact absurd hdf.symm ((hdisj d hd).1 f hf)
  | uploadTick i inc =>
    have hine : i ≠ f.id := fun hco => hnt inc (by rw [hco])
    have hf'2 : f' ∈ (uploadIntervalTick i inc s).files := hf'
    unfold uploadIntervalTick at hf'2
    cases hfind : findUploadLocal s.timers i with
    | none =>
      rw [hfind] at hf'2
      exact eq_of_mem_pairwise_key (fun x : UploadedFile => x.id) h2 hf'2 hf hid
    | some l =>
      rw [hfind] at hf'2
      simp only [ratAdd_eq] at hf'2
      split at hf'2
      · rcases List.mem_map.mp hf'2 with ⟨f0, hf0, rfl⟩
        have hgid : f0.id = f.id := by
          rw [← hid]
          by_cases hfi : f0.id = i
          · rw [if_pos hfi]
          · rw [if_neg hfi]
        obtain rfl : f0 = f :=
          eq_of_mem_pairwise_key (fun x : UploadedFile => x.id) h2 hf0 hf hgid
        rw [if_neg (fun hco => hine hco.symm)]
      · rcases List.mem_map.mp hf'2 with ⟨f0, hf0, rfl⟩
        have hgid : f0.id = f.id := by
          rw [← hid]
          by_cases hfi : f0.id = i
          · rw [if_pos hfi]
          · rw [if_neg hfi]
        obtain rfl : f0 = f :=
          eq_of_mem_pairwise_key (fun x : UploadedFile => x.id) h2 hf0 hf hgid
        rw [if_neg (fun hco => hine hco.symm)]
  | handoffFire i =>
    have hf'2 : f' ∈ (handoffTimeout i s).files := hf'
    unfold handoffTimeout at hf'2
    split at hf'2
    · exact eq_of_mem_pairwise_key (fun x : UploadedFile => x.id) h2 hf'2 hf hid
    · exact eq_of_mem_pairwise_key (fun x : UploadedFile => x.id) h2 hf'2 hf hid
  | processTick i inc =>
    have hf'2 : f' ∈ (processingIntervalTick i inc s).files := hf'
    unfold processingIntervalTick at hf'2
    split at hf'2
    · rcases List.mem_map.mp hf'2 with ⟨f0, hf0, rfl⟩
      have hgid : f0.id = f.id := by
        rw [← hid]
        by_cases hfi : f0.id = i ∧ f0.status = UploadStatus.processing
        · rw [if_pos hfi]
          by_cases h100 : (100:ℚ) ≤ ratAdd f0.progress inc
          · rw [if_pos h100]
          · rw [if_neg h100]
        · rw [if_neg hfi]
      obtain rfl : f0 = f :=
        eq_of_mem_pairwise_key (fun x : UploadedFile => x.id) h2 hf0 hf hgid
      have hnp : ¬ (f0.id = i ∧ f0.status = UploadStatus.processing) := by
        intro hco
        rcases hst with hr | he
        · rw [hr] at hco
          cases hco.2
        · rw [he] at hco
          cases hco.2
      rw [if_neg hnp]
    · exact eq_of_mem_pairwise_key (fun x : UploadedFile => x.id) h2 hf'2 hf hid
  | removeRecord i =>
    exact eq_of_mem_pairwise_key (fun x : UploadedFile => x.id) h2
      (List.mem_filter.mp hf').1 hf hid
  | setError i msg =>
    have hf'2 : f' ∈ (setRecordError i msg s).files := hf'
    unfold setRecordError at hf'2
    rcases List.mem_map.mp hf'2 with ⟨f0, hf0, rfl⟩
    have hgid : f0.id = f.id := by
      rw [← hid]
      by_cases hfi : f0.id = i ∧
          (f0.status = UploadStatus.uploading ∨ f0.status = UploadStatus.processing)
      · rw [if_pos hfi]
      · rw [if_neg hfi]
    obtain rfl : f0 = f :=
      eq_of_mem_pairwise_key (fun x : UploadedFile => x.id) h2 hf0 hf hgid
    have hnp : ¬ (f0.id = i ∧
        (f0.status = UploadStatus.uploading ∨ f0.status = UploadStatus.processing)) := by
      intro hco
      rcases hst with hr | he
      · rw [hr] at hco
        rcases hco.2 with hc | hc <;> cases hc
      · rw [he] at hco
        rcases hco.2 with hc | hc <;> cases hc
    rw [if_neg hnp]

theorem C8_witness :
    UploadInv (runUpload initUploadState
      [UploadEvent.addFiles [FileDesc.mk "a" "f.txt" 100] 0,
       UploadEvent.uploadTick "a" 100,
       UploadEvent.handoffFire "a",
       UploadEvent.processTick "a" 100]) ∧
    UploadedFile.mk "a" "f.txt" 100 UploadStatus.ready 100 0 none
      = UploadedFile.mk "a" "f.txt" 100 UploadStatus.ready 100 0 none :=
  ⟨by decide,
   C8_ready_error_terminal_except_upload_tick
     (runUpload initUploadState
       [UploadEvent.addFiles [FileDesc.mk "a" "f.txt" 100] 0,
        UploadEvent.uploadTick "a" 100,
        UploadEvent.handoffFire "a",
        UploadEvent.processTick "a" 100])
     (UploadEvent.removeRecord "b")
     (by decide)
     True.intro
     (UploadedFile.mk "a" "f.txt" 100 UploadStatus.ready 100 0 none)
     (by decide)
     (Or.inl rfl)
     (fun inc h => by cases h)
     (UploadedFile.mk "a" "f.txt" 100 UploadStatus.ready 100 0 none)
     (by decide)
     rfl⟩

end StaffordGPT
